import Mathlib

/-!
Verification of the driving-school scraper's validation, deduplication and
incremental-persistence pipeline.

The definitions below are a shallow embedding of the Python sources:

* `src/utils/validators.py` — `DataValidator` (field predicates and
  normalizers) and `DataDeduplicator` (similarity scoring, duplicate
  grouping, group merging);
* `src/cloud_deployment/incremental_scraper.py` — the incremental
  orchestrator (`save_schools_batch`, `get_completed_cities`,
  `run_incremental_scrape`);
* `src/scraper/base_scraper.py` / `src/scraper/rijlessen_nl_scraper.py` —
  the `ScrapedSchool` record and the detail-enhancement step.

Modelling conventions:

* Python `str` values are Lean `String`s; character-level work happens on
  `List Char`.  Case mapping and the digit class are modelled for the
  ASCII range (`Char.toLower` / `Char.toUpper` / `Char.isDigit`), which is
  the range the scraped data and the source's regexes actually exercise.
* Python `None` is `Option.none`; Python truthiness of a string is
  "not `None` and not empty", of a number "not `None` and not zero".
* Python `float` scores are modelled as `ℚ` (the source only adds and
  divides the literals 0.5, 0.3, 0.2, 0.15, so no rounding behaviour is
  observable at the granularity of the claims).
* External library calls (`email_validator.validate_email`, the compiled
  URL regex) are parameters of the embedding: the source only wraps them
  in a `None`/empty guard.
-/

set_option maxHeartbeats 1000000

/-! ## Character helpers -/

/-- Python whitespace class (the characters matched by `\s` and split on by
`str.split()` for ASCII input): space, tab, newline, carriage return,
vertical tab, form feed. -/
def isWsChar (c : Char) : Bool :=
  c = ' ' || c = '\t' || c = '\n' || c = '\r' || c = '\x0b' || c = '\x0c'

/-- Nat code of a character. -/
abbrev charCode (c : Char) : Nat := c.toNat

theorem charToNat_ofNat_valid (n : Nat) (h : Nat.isValidChar n) :
    (Char.ofNat n).toNat = n := by
  unfold Char.ofNat
  rw [dif_pos h]
  rfl

theorem char_eq_iff_toNat {a b : Char} : a = b ↔ a.toNat = b.toNat := by
  constructor
  · intro h; rw [h]
  · intro h
    apply Char.eq_of_val_eq
    apply UInt32.toNat.inj h

theorem toLower_toNat_of_upper (c : Char) (h1 : 65 ≤ c.toNat) (h2 : c.toNat ≤ 90) :
    (Char.toLower c).toNat = c.toNat + 32 := by
  unfold Char.toLower
  rw [if_pos ⟨h1, h2⟩]
  exact charToNat_ofNat_valid _ (Or.inl (by omega))

theorem toLower_eq_self (c : Char) (h : ¬ (65 ≤ c.toNat ∧ c.toNat ≤ 90)) :
    Char.toLower c = c := by
  unfold Char.toLower
  rw [if_neg h]

theorem toLower_idem (c : Char) : Char.toLower (Char.toLower c) = Char.toLower c := by
  by_cases h : 65 ≤ c.toNat ∧ c.toNat ≤ 90
  · have h1 := toLower_toNat_of_upper c h.1 h.2
    apply toLower_eq_self
    omega
  · rw [toLower_eq_self c h, toLower_eq_self c h]

theorem toUpper_toNat_of_lower (c : Char) (h1 : 97 ≤ c.toNat) (h2 : c.toNat ≤ 122) :
    (Char.toUpper c).toNat = c.toNat - 32 := by
  unfold Char.toUpper
  rw [if_pos ⟨h1, h2⟩]
  exact charToNat_ofNat_valid _ (Or.inl (by omega))

theorem toUpper_eq_self (c : Char) (h : ¬ (97 ≤ c.toNat ∧ c.toNat ≤ 122)) :
    Char.toUpper c = c := by
  unfold Char.toUpper
  rw [if_neg h]

theorem isWsChar_iff_toNat (c : Char) :
    isWsChar c = true ↔ c.toNat = 32 ∨ c.toNat = 9 ∨ c.toNat = 10 ∨
      c.toNat = 13 ∨ c.toNat = 11 ∨ c.toNat = 12 := by
  simp only [isWsChar, Bool.or_eq_true, decide_eq_true_eq, char_eq_iff_toNat,
    show (' ').toNat = 32 from rfl, show ('\t').toNat = 9 from rfl,
    show ('\n').toNat = 10 from rfl, show ('\r').toNat = 13 from rfl,
    show ('\x0b').toNat = 11 from rfl, show ('\x0c').toNat = 12 from rfl]
  tauto

theorem isWsChar_toLower (c : Char) : isWsChar (Char.toLower c) = isWsChar c := by
  by_cases h : 65 ≤ c.toNat ∧ c.toNat ≤ 90
  · have h1 := toLower_toNat_of_upper c h.1 h.2
    have hc : isWsChar c = false := by
      rw [← Bool.not_eq_true, isWsChar_iff_toNat]; omega
    have hl : isWsChar (Char.toLower c) = false := by
      rw [← Bool.not_eq_true, isWsChar_iff_toNat]; omega
    rw [hc, hl]
  · rw [toLower_eq_self c h]

theorem isWsChar_toUpper (c : Char) : isWsChar (Char.toUpper c) = isWsChar c := by
  by_cases h : 97 ≤ c.toNat ∧ c.toNat ≤ 122
  · have h1 := toUpper_toNat_of_lower c h.1 h.2
    have hc : isWsChar c = false := by
      rw [← Bool.not_eq_true, isWsChar_iff_toNat]; omega
    have hl : isWsChar (Char.toUpper c) = false := by
      rw [← Bool.not_eq_true, isWsChar_iff_toNat]; omega
    rw [hc, hl]
  · rw [toUpper_eq_self c h]

theorem toUpper_toUpper (c : Char) : Char.toUpper (Char.toUpper c) = Char.toUpper c := by
  by_cases h : 97 ≤ c.toNat ∧ c.toNat ≤ 122
  · have h1 := toUpper_toNat_of_lower c h.1 h.2
    apply toUpper_eq_self
    omega
  · rw [toUpper_eq_self c h, toUpper_eq_self c h]

/-! ## Python string primitives on `List Char` -/

/-- Python `a in b` for strings: `a` is a contiguous substring of `b`. -/
def isSubstring (a : List Char) : List Char → Bool
  | [] => a.isEmpty
  | c :: bs => a.isPrefixOf (c :: bs) || isSubstring a bs

/-- Python `s.split()` with no argument: split on runs of whitespace,
dropping empty fragments. -/
def splitWords (l : List Char) : List (List Char) :=
  (l.splitOnP isWsChar).filter (fun w => !w.isEmpty)

/-- Python `' '.join(ws)`. -/
def joinWords : List (List Char) → List Char
  | [] => []
  | [w] => w
  | w :: v :: ws => w ++ ' ' :: joinWords (v :: ws)

/-- Python `s.strip()`: drop leading and trailing whitespace. -/
def pyStrip (l : List Char) : List Char :=
  ((l.dropWhile isWsChar).reverse.dropWhile isWsChar).reverse

/-- Python `s.lower()` (ASCII range). -/
def pyLower (s : String) : String :=
  String.mk (s.data.map Char.toLower)

/-- Python `word.capitalize()` (ASCII range): upper-case the first
character, lower-case the rest. -/
def capWord : List Char → List Char
  | [] => []
  | c :: cs => Char.toUpper c :: cs.map Char.toLower

/-- Python truthiness of an optional string: `None` and `""` are falsy. -/
def truthyS : Option String → Bool
  | none => false
  | some s => s != ""

/-- Python truthiness of an optional rational: `None` and `0` are falsy. -/
def truthyQ : Option ℚ → Bool
  | none => false
  | some q => q != 0

/-- Python truthiness of an optional integer: `None` and `0` are falsy. -/
def truthyI : Option Int → Bool
  | none => false
  | some n => n != 0

/-! ## DataValidator (src/utils/validators.py, lines 7-127) -/

/-- Area-code starts accepted by `validate_phone` and `normalize_phone`
for 10-digit numbers (`'020','030','040','050','070','010'`). -/
def areaCodes3 : List (List Char) :=
  [['0','2','0'], ['0','3','0'], ['0','4','0'], ['0','5','0'], ['0','7','0'], ['0','1','0']]

/-- Embedding of `DataValidator.validate_phone` (validators.py 10-28).
`re.sub(r'\D', '', phone)` is modelled as filtering ASCII digits. -/
def validate_phone (phone : Option String) : Bool :=
  match phone with
  | none => false
  | some s =>
    if s = "" then false
    else
      let digits := s.data.filter Char.isDigit
      if digits.length = 10 &&
          (List.isPrefixOf ['0','6'] digits || areaCodes3.any (fun p => p.isPrefixOf digits)) then
        true
      else if digits.length = 11 && List.isPrefixOf ['3','1','6'] digits then
        true
      else if digits.length = 12 && List.isPrefixOf ['3','1'] digits then
        true
      else
        false

/-- Embedding of `DataValidator.validate_email_address` (validators.py 30-40).
The call into the external `email_validator` package is a parameter
`libValid`; the source only adds the falsy guard in front of it. -/
def validate_email_address (libValid : String → Bool) (email : Option String) : Bool :=
  match email with
  | none => false
  | some s => if s = "" then false else libValid s

/-- Embedding of `DataValidator.validate_url` (validators.py 42-56).
The compiled URL regex is a parameter `urlRegex`; the source only adds the
falsy guard in front of the match. -/
def validate_url (urlRegex : String → Bool) (url : Option String) : Bool :=
  match url with
  | none => false
  | some s => if s = "" then false else urlRegex s

/-- Embedding of `DataValidator.validate_rating` (validators.py 58-63):
`None` is allowed, otherwise the value must lie in [0, 5]. -/
def validate_rating (rating : Option ℚ) : Bool :=
  match rating with
  | none => true
  | some r => decide (0 ≤ r ∧ r ≤ 5)

/-- Embedding of `DataValidator.validate_success_rate` (validators.py 65-70):
`None` is allowed, otherwise the value must lie in [0, 100]. -/
def validate_success_rate (rate : Option Int) : Bool :=
  match rate with
  | none => true
  | some r => decide (0 ≤ r ∧ r ≤ 100)

/-- Case-insensitive literal match of `pat` against the front of `s`
(ASCII case folding, modelling `re.IGNORECASE`): returns the rest of `s`
after the matched portion, or `none`. -/
def matchCI : List Char → List Char → Option (List Char)
  | [], rest => some rest
  | _ :: _, [] => none
  | p :: ps, c :: cs =>
    if Char.toLower c = Char.toLower p then matchCI ps cs else none

/-- Match `\s+` (greedy) at the front of `s`: requires at least one
whitespace character, consumes the whole run. -/
def matchWsRun : List Char → Option (List Char)
  | [] => none
  | c :: cs => if isWsChar c then some (cs.dropWhile isWsChar) else none

/-- Try one alternative of the pattern
`^(Rijschool|Autorijschool|Verkeersschool)\s+`. -/
def tryTag (tag : List Char) (l : List Char) : Option (List Char) :=
  match matchCI tag l with
  | none => none
  | some rest => matchWsRun rest

/-- Embedding of
`re.sub(r'^(Rijschool|Autorijschool|Verkeersschool)\s+', '', name, flags=re.IGNORECASE)`
(validators.py 82).  The pattern is anchored, so at most one occurrence is
removed; the regex engine tries the alternatives left to right. -/
def subSchoolTag (l : List Char) : List Char :=
  match tryTag ("Rijschool").data l with
  | some rest => rest
  | none =>
    match tryTag ("Autorijschool").data l with
    | some rest => rest
    | none =>
      match tryTag ("Verkeersschool").data l with
      | some rest => rest
      | none => l

/-- Core of `clean_name` on character lists: collapse whitespace, strip
one leading business-type word, strip. -/
def cleanNameL (l : List Char) : List Char :=
  pyStrip (subSchoolTag (joinWords (splitWords l)))

/-- Embedding of `DataValidator.clean_name` (validators.py 72-84). -/
def clean_name (name : Option String) : String :=
  match name with
  | none => ""
  | some s => if s = "" then "" else String.mk (cleanNameL s.data)

/-- Core of `clean_address` on character lists: collapse whitespace,
capitalize each word, strip. -/
def cleanAddressL (l : List Char) : List Char :=
  let a1 := joinWords (splitWords l)
  pyStrip (joinWords ((splitWords a1).map capWord))

/-- Embedding of `DataValidator.clean_address` (validators.py 86-98). -/
def clean_address (address : Option String) : String :=
  match address with
  | none => ""
  | some s => if s = "" then "" else String.mk (cleanAddressL s.data)

/-- Format helper for `normalize_phone`: the mobile shape
`f"+31 6 {t[0:2]} {t[2:4]} {t[4:6]} {t[6:]}"` applied to the digit tail
`t` (the branches at validators.py 112, 118 and 121 all produce this
shape, with `t` the digits after the recognized mobile marker). -/
def fmtMobile (t : List Char) : List Char :=
  '+' :: '3' :: '1' :: ' ' :: '6' :: ' ' ::
    (t.take 2 ++ ' ' :: ((t.drop 2).take 2 ++ ' ' :: ((t.drop 4).take 2 ++ ' ' :: t.drop 6)))

/-- Format helper for the 10-digit area-code branch (validators.py 113-116):
`f"+31 {area_code[1:]} {number[:3]} {number[3:]}"`. -/
def fmtArea10 (area number : List Char) : List Char :=
  '+' :: '3' :: '1' :: ' ' ::
    (area.drop 1 ++ ' ' :: (number.take 3 ++ ' ' :: number.drop 3))

/-- Format helper for the 12-digit non-mobile branch (validators.py 122-125):
`f"+31 {area} {rest[:3]} {rest[3:]}"`. -/
def fmtIntl (area rest : List Char) : List Char :=
  '+' :: '3' :: '1' :: ' ' ::
    (area ++ ' ' :: (rest.take 3 ++ ' ' :: rest.drop 3))

/-- Two-digit area codes tested by the 12-digit branch
(`['20','30','40','50','70','10']`, validators.py 123). -/
def areaCodes2 : List (List Char) :=
  [['2','0'], ['3','0'], ['4','0'], ['5','0'], ['7','0'], ['1','0']]

/-- The `area` local of the 12-digit branch (validators.py 123):
`digits[2:4]` if that two-digit slice is a known area code, else
`digits[2:5]`. -/
def intlArea (digits : List Char) : List Char :=
  if areaCodes2.contains ((digits.drop 2).take 2) then (digits.drop 2).take 2
  else (digits.drop 2).take 3

/-- Core of `normalize_phone` on the raw character list (validators.py
100-127).  `digits` is the ASCII-digit subsequence; unrecognized shapes
return the input unchanged. -/
def normPhoneL (l : List Char) : List Char :=
  let digits := l.filter Char.isDigit
  if digits.length = 10 then
    if List.isPrefixOf ['0','6'] digits then
      fmtMobile (digits.drop 2)
    else if areaCodes3.any (fun p => p.isPrefixOf digits) then
      fmtArea10 (digits.take 3) (digits.drop 3)
    else l
  else if digits.length = 11 && List.isPrefixOf ['3','1','6'] digits then
    fmtMobile (digits.drop 3)
  else if digits.length = 12 && List.isPrefixOf ['3','1'] digits then
    if (digits.drop 2).take 1 = ['6'] then
      fmtMobile (digits.drop 4)
    else
      fmtIntl (intlArea digits) (digits.drop ((intlArea digits).length + 2))
  else l

/-- Embedding of `DataValidator.normalize_phone` (validators.py 100-127). -/
def normalize_phone (phone : Option String) : String :=
  match phone with
  | none => ""
  | some s => if s = "" then "" else String.mk (normPhoneL s.data)

/-! ## DataDeduplicator (src/utils/validators.py, lines 129-240)

School dictionaries are modelled by a record with the seven fields the
deduplicator reads (`name`, `address`, `phone`, `email`, `website`,
`rating`, `review_count`); `dict.get` of a missing or `None` value is
`Option.none`. -/

structure SchoolDict where
  name : Option String := none
  address : Option String := none
  phone : Option String := none
  email : Option String := none
  website : Option String := none
  rating : Option ℚ := none
  review_count : Option Int := none
deriving DecidableEq, Repr, Inhabited

/-- Embedding of `DataDeduplicator.calculate_similarity` (validators.py
132-169).  Scores are exact rationals; the literals are the source's
`0.5 / 0.3 / 0.2 / 0.15`. -/
def calculate_similarity (school1 school2 : SchoolDict) : ℚ :=
  let s0 : ℚ × ℚ := (0, 0)
  let s1 :=
    if truthyS school1.name && truthyS school2.name then
      let name1 := pyLower (clean_name school1.name)
      let name2 := pyLower (clean_name school2.name)
      (s0.1 +
        (if name1 = name2 then (0.5 : ℚ)
         else if isSubstring name1.data name2.data || isSubstring name2.data name1.data then
           (0.3 : ℚ)
         else 0),
       s0.2 + 0.5)
    else s0
  let s2 :=
    if truthyS school1.address && truthyS school2.address then
      let addr1 := pyLower (school1.address.getD "")
      let addr2 := pyLower (school2.address.getD "")
      (s1.1 +
        (if addr1 = addr2 then (0.3 : ℚ)
         else if (splitWords addr1.data).any
             (fun w => decide (w.length > 3) && isSubstring w addr2.data) then
           (0.15 : ℚ)
         else 0),
       s1.2 + 0.3)
    else s1
  let s3 :=
    if truthyS school1.phone && truthyS school2.phone then
      let phone1 := (school1.phone.getD "").data.filter Char.isDigit
      let phone2 := (school2.phone.getD "").data.filter Char.isDigit
      (s2.1 + (if phone1 = phone2 then (0.2 : ℚ) else 0), s2.2 + 0.2)
    else s2
  if s3.2 > 0 then s3.1 / s3.2 else 0

/-- Inner loop of `find_duplicates` (validators.py 183-190): scan the
enumerated tail for indices similar to `school1`, skipping indices already
in `processed`; returns the collected group tail and the updated
`processed` list. -/
def findDupInner (threshold : ℚ) (school1 : SchoolDict) :
    List (ℕ × SchoolDict) → List ℕ → List ℕ × List ℕ
  | [], processed => ([], processed)
  | (j, school2) :: rest, processed =>
    if processed.contains j then findDupInner threshold school1 rest processed
    else if calculate_similarity school1 school2 ≥ threshold then
      let (g, p) := findDupInner threshold school1 rest (j :: processed)
      (j :: g, p)
    else findDupInner threshold school1 rest processed

/-- Outer loop of `find_duplicates` (validators.py 177-194). -/
def findDupOuter (threshold : ℚ) :
    List (ℕ × SchoolDict) → List ℕ → List (List ℕ)
  | [], _ => []
  | (i, school1) :: rest, processed =>
    if processed.contains i then findDupOuter threshold rest processed
    else
      let (g, p) := findDupInner threshold school1 rest processed
      if g.isEmpty then findDupOuter threshold rest p
      else (i :: g) :: findDupOuter threshold rest (i :: (g ++ p))

/-- Embedding of `DataDeduplicator.find_duplicates` (validators.py
171-196); the source's default threshold is 0.8. -/
def find_duplicates (schools : List SchoolDict) (threshold : ℚ) : List (List ℕ) :=
  findDupOuter threshold schools.enum []

/-- Completeness score used by `merge_duplicates` (validators.py 211-219):
the number of truthy fields among the seven listed ones. -/
def completeness_score (s : SchoolDict) : ℕ :=
  (if truthyS s.name then 1 else 0) + (if truthyS s.address then 1 else 0) +
  (if truthyS s.phone then 1 else 0) + (if truthyS s.email then 1 else 0) +
  (if truthyS s.website then 1 else 0) + (if truthyQ s.rating then 1 else 0) +
  (if truthyI s.review_count then 1 else 0)

/-- The `best_school` selection loop (validators.py 206-223): strict
improvement over a running best initialised to score -1, so the first
index attaining the maximum wins; the chosen dict is copied. -/
def pickBestGo (best : Option SchoolDict) (bestScore : Int) :
    List SchoolDict → Option SchoolDict
  | [] => best
  | s :: rest =>
    if (completeness_score s : Int) > bestScore then
      pickBestGo (some s) (completeness_score s) rest
    else pickBestGo best bestScore rest

/-- Select the most complete member of a group (validators.py 206-223). -/
def pickBest (l : List SchoolDict) : Option SchoolDict :=
  pickBestGo none (-1) l

/-- One step of the gap-fill loop (validators.py 226-230): a field of the
base is overwritten only when it is falsy and the donor value is truthy. -/
def fillSchool (best s : SchoolDict) : SchoolDict :=
  { name := if !truthyS best.name && truthyS s.name then s.name else best.name,
    address := if !truthyS best.address && truthyS s.address then s.address else best.address,
    phone := if !truthyS best.phone && truthyS s.phone then s.phone else best.phone,
    email := if !truthyS best.email && truthyS s.email then s.email else best.email,
    website := if !truthyS best.website && truthyS s.website then s.website else best.website,
    rating := if !truthyQ best.rating && truthyQ s.rating then s.rating else best.rating,
    review_count := if !truthyI best.review_count && truthyI s.review_count then s.review_count
      else best.review_count }

/-- The members of a duplicate group, read off with `schools[idx]`
(validators.py 210, 227); indexing is total here, out-of-range indices
yield the default dict and the merge theorems assume in-range groups. -/
def groupMembers (schools : List SchoolDict) (group : List ℕ) : List SchoolDict :=
  group.map (fun idx => schools.getD idx default)

/-- Merge one duplicate group (validators.py 204-232): pick the most
complete member, then run the gap-fill loop over all members in group
order.  An empty group yields `none` (the Python loop would append
`None`). -/
def mergeGroup (schools : List SchoolDict) (group : List ℕ) : Option SchoolDict :=
  match pickBest (groupMembers schools group) with
  | none => none
  | some best => some ((groupMembers schools group).foldl fillSchool best)

/-- The group loop of `merge_duplicates` (validators.py 204-233): merged
records in group order, plus the accumulated `to_skip` index set. -/
def mergeGroupsGo (schools : List SchoolDict) :
    List (List ℕ) → List (Option SchoolDict) × List ℕ
  | [] => ([], [])
  | g :: gs =>
    let (ms, skip) := mergeGroupsGo schools gs
    (mergeGroup schools g :: ms, g ++ skip)

/-- Embedding of `DataDeduplicator.merge_duplicates` (validators.py
198-240): merged groups first, then the entities whose index is in no
group, in original order. -/
def merge_duplicates (schools : List SchoolDict) (groups : List (List ℕ)) :
    List (Option SchoolDict) :=
  let (ms, skip) := mergeGroupsGo schools groups
  ms ++ (schools.enum.filter (fun p => !(skip.contains p.1))).map (fun p => some p.2)

/-! ## Decomposition of `calculate_similarity` for the symmetry analysis

The six functions below name the three per-field contributions of
`calculate_similarity` to the numerator and the denominator;
`calculate_similarity_parts` proves that the sequential accumulation in
the source equals their sums. -/

/-- Name contribution to the similarity numerator (validators.py 139-147). -/
def nameScore (a b : SchoolDict) : ℚ :=
  if truthyS a.name && truthyS b.name then
    (if pyLower (clean_name a.name) = pyLower (clean_name b.name) then (0.5 : ℚ)
     else if isSubstring (pyLower (clean_name a.name)).data (pyLower (clean_name b.name)).data ||
         isSubstring (pyLower (clean_name b.name)).data (pyLower (clean_name a.name)).data then
       (0.3 : ℚ)
     else 0)
  else 0

/-- Name contribution to the similarity denominator. -/
def nameWeight (a b : SchoolDict) : ℚ :=
  if truthyS a.name && truthyS b.name then (0.5 : ℚ) else 0

/-- Address contribution to the similarity numerator (validators.py
150-158).  Note the partial-credit test is directional: words of `a`'s
address are searched inside `b`'s address only. -/
def addrScore (a b : SchoolDict) : ℚ :=
  if truthyS a.address && truthyS b.address then
    (if pyLower (a.address.getD "") = pyLower (b.address.getD "") then (0.3 : ℚ)
     else if (splitWords (pyLower (a.address.getD "")).data).any
         (fun w => decide (w.length > 3) && isSubstring w (pyLower (b.address.getD "")).data) then
       (0.15 : ℚ)
     else 0)
  else 0

/-- Address contribution to the similarity denominator. -/
def addrWeight (a b : SchoolDict) : ℚ :=
  if truthyS a.address && truthyS b.address then (0.3 : ℚ) else 0

/-- Phone contribution to the similarity numerator (validators.py 161-167). -/
def phoneScore (a b : SchoolDict) : ℚ :=
  if truthyS a.phone && truthyS b.phone then
    (if (a.phone.getD "").data.filter Char.isDigit = (b.phone.getD "").data.filter Char.isDigit
     then (0.2 : ℚ) else 0)
  else 0

/-- Phone contribution to the similarity denominator. -/
def phoneWeight (a b : SchoolDict) : ℚ :=
  if truthyS a.phone && truthyS b.phone then (0.2 : ℚ) else 0

theorem calculate_similarity_parts (a b : SchoolDict) :
    calculate_similarity a b =
      if nameWeight a b + addrWeight a b + phoneWeight a b > 0 then
        (nameScore a b + addrScore a b + phoneScore a b) /
          (nameWeight a b + addrWeight a b + phoneWeight a b)
      else 0 := by
  simp only [calculate_similarity, nameScore, nameWeight, addrScore, addrWeight,
    phoneScore, phoneWeight]
  by_cases h1 : truthyS a.name && truthyS b.name <;>
    by_cases h2 : truthyS a.address && truthyS b.address <;>
      by_cases h3 : truthyS a.phone && truthyS b.phone <;>
        simp [h1, h2, h3]

theorem nameWeight_symm (a b : SchoolDict) : nameWeight a b = nameWeight b a := by
  simp only [nameWeight]; rw [Bool.and_comm]

theorem addrWeight_symm (a b : SchoolDict) : addrWeight a b = addrWeight b a := by
  simp only [addrWeight]; rw [Bool.and_comm]

theorem phoneWeight_symm (a b : SchoolDict) : phoneWeight a b = phoneWeight b a := by
  simp only [phoneWeight]; rw [Bool.and_comm]

theorem nameScore_symm (a b : SchoolDict) : nameScore a b = nameScore b a := by
  simp only [nameScore]
  rw [Bool.and_comm]
  by_cases hg : (truthyS b.name && truthyS a.name) = true
  · rw [if_pos hg, if_pos hg]
    by_cases he : pyLower (clean_name a.name) = pyLower (clean_name b.name)
    · rw [if_pos he, if_pos he.symm]
    · rw [if_neg he,
        if_neg (fun h : pyLower (clean_name b.name) = pyLower (clean_name a.name) => he h.symm),
        Bool.or_comm]
  · rw [if_neg hg, if_neg hg]

theorem phoneScore_symm (a b : SchoolDict) : phoneScore a b = phoneScore b a := by
  simp only [phoneScore]
  rw [Bool.and_comm]
  by_cases hg : (truthyS b.phone && truthyS a.phone) = true
  · rw [if_pos hg, if_pos hg]
    by_cases he : (a.phone.getD "").data.filter Char.isDigit =
        (b.phone.getD "").data.filter Char.isDigit
    · rw [if_pos he, if_pos he.symm]
    · rw [if_neg he, if_neg (fun h => he h.symm)]
  · rw [if_neg hg, if_neg hg]

theorem addrScore_symm_of (a b : SchoolDict)
    (h : ¬(truthyS a.address = true ∧ truthyS b.address = true) ∨
      pyLower (a.address.getD "") = pyLower (b.address.getD "")) :
    addrScore a b = addrScore b a := by
  rcases h with h | h
  · have hg : (truthyS a.address && truthyS b.address) = false := by
      cases ha : truthyS a.address <;> cases hb : truthyS b.address <;> simp_all
    have hg2 : (truthyS b.address && truthyS a.address) = false := by
      cases ha : truthyS a.address <;> cases hb : truthyS b.address <;> simp_all
    simp [addrScore, hg, hg2]
  · simp only [addrScore]
    rw [Bool.and_comm]
    by_cases hg : (truthyS b.address && truthyS a.address) = true
    · rw [if_pos hg, if_pos hg, if_pos h, if_pos h.symm]
    · rw [if_neg hg, if_neg hg]

/-! ## Claims C4, C5, C6 -/

/-- Two records whose lowercased addresses strictly extend one another:
the source's one-directional word-overlap test fires for one argument
order only. -/
def schoolAddrShort : SchoolDict := { address := some "abcde" }

/-- See `schoolAddrShort`. -/
def schoolAddrLong : SchoolDict := { address := some "abcdef" }

/-- C4 counterexample.  The claim states
`calculate_similarity(a, b) = calculate_similarity(b, a)` for every pair
of entity records.  For the records with addresses "abcde" and "abcdef"
(all other fields absent) the scores differ: the word "abcde" (length 5 >
3) is a substring of "abcdef", so the a→b direction earns the partial
address credit 0.15 of weight 0.3, while the word "abcdef" is not a
substring of "abcde", so the b→a direction earns nothing. -/
theorem claim_C4_counterexample :
    calculate_similarity schoolAddrShort schoolAddrLong = 1 / 2 ∧
    calculate_similarity schoolAddrLong schoolAddrShort = 0 ∧
    calculate_similarity schoolAddrShort schoolAddrLong ≠
      calculate_similarity schoolAddrLong schoolAddrShort := by
  have h1 : calculate_similarity schoolAddrShort schoolAddrLong = 1 / 2 := by
    simp +decide only [calculate_similarity, schoolAddrShort, schoolAddrLong]
    norm_num
  have h2 : calculate_similarity schoolAddrLong schoolAddrShort = 0 := by
    simp +decide only [calculate_similarity, schoolAddrShort, schoolAddrLong]
    norm_num
  refine ⟨h1, h2, ?_⟩
  rw [h1, h2]
  norm_num

/-- C4 amended: `calculate_similarity` is symmetric for every pair of
records in which the two addresses are not both truthy (present and
non-empty), or in which the lowercased addresses are equal — i.e. whenever
the directional partial-overlap branch of the address comparison cannot
fire.  The name and phone comparisons are symmetric unconditionally. -/
theorem claim_C4_amended (a b : SchoolDict)
    (h : ¬(truthyS a.address = true ∧ truthyS b.address = true) ∨
      pyLower (a.address.getD "") = pyLower (b.address.getD "")) :
    calculate_similarity a b = calculate_similarity b a := by
  rw [calculate_similarity_parts, calculate_similarity_parts, nameScore_symm,
    phoneScore_symm, addrScore_symm_of a b h, nameWeight_symm, addrWeight_symm,
    phoneWeight_symm]

/-- Entity from the spec's phone-only scenario: name "Acme Driving", no
address, phone "0612345678". -/
def schoolAcme : SchoolDict := { name := some "Acme Driving", phone := some "0612345678" }

/-- Entity from the spec's phone-only scenario: name "Best Driving", no
address, phone "0612345678". -/
def schoolBest : SchoolDict := { name := some "Best Driving", phone := some "0612345678" }

/-- C4 witness: the amended symmetry theorem applied to the concrete pair
`schoolAcme` / `schoolBest`, whose addresses are both absent. -/
theorem claim_C4_witness :
    (¬(truthyS schoolAcme.address = true ∧ truthyS schoolBest.address = true)) ∧
    calculate_similarity schoolAcme schoolBest = calculate_similarity schoolBest schoolAcme :=
  ⟨by decide, claim_C4_amended schoolAcme schoolBest (Or.inl (by decide))⟩

/-- C5 counterexample.  The claim states that all five field predicates
return `True` on a `None` value; in the source `validate_phone`,
`validate_email_address` and `validate_url` all begin with
`if not <value>: return False`, so they return `False` on `None` (the
guards run before the delegated pattern or library check, so the result
holds for every choice of the delegated matcher). -/
theorem claim_C5_counterexample :
    validate_phone none = false ∧
    validate_email_address (fun _ => true) none = false ∧
    validate_url (fun _ => true) none = false :=
  ⟨rfl, rfl, rfl⟩

/-- C5 amended: `validate_rating` and `validate_success_rate` return
`True` on `None` (absence allowed); `validate_phone`,
`validate_email_address` and `validate_url` return `False` on `None`
(their falsy guard rejects both `None` and the empty string, for every
delegated matcher). -/
theorem claim_C5_amended :
    validate_rating none = true ∧ validate_success_rate none = true ∧
    validate_phone none = false ∧
    (∀ libValid : String → Bool, validate_email_address libValid none = false) ∧
    (∀ urlRegex : String → Bool, validate_url urlRegex none = false) :=
  ⟨rfl, rfl, rfl, fun _ => rfl, fun _ => rfl⟩

/-- C6 counterexample.  The claim (and spec §8) state that for
"Acme Driving" vs "Best Driving" with equal phones and no addresses the
similarity is 1.0 (denominator 0.2) and the two are grouped at threshold
0.8.  In the source both names are present, so the name weight 0.5 also
enters the denominator (line 147 runs whenever both names are truthy,
matching or not): the score is 0.2 / 0.7 = 2/7 ≠ 1, and `find_duplicates`
at threshold 0.8 produces no group. -/
theorem claim_C6_counterexample :
    calculate_similarity schoolAcme schoolBest ≠ 1 ∧
    find_duplicates [schoolAcme, schoolBest] (0.8 : ℚ) = [] := by
  have hs : calculate_similarity schoolAcme schoolBest = 2 / 7 := by
    simp +decide only [calculate_similarity, schoolAcme, schoolBest]
    norm_num
  constructor
  · rw [hs]; norm_num
  · simp only [find_duplicates, List.enum, List.enumFrom, findDupOuter, findDupInner,
      List.contains, List.elem, hs]
    norm_num

/-- C6 amended: for the phone-only scenario the denominator is 0.7 (name
weight 0.5 + phone weight 0.2, both name values being present), the
numerator is the phone credit 0.2, so the similarity is 2/7 ≈ 0.286 and
`find_duplicates` at threshold 0.8 places the two entities in no
duplicate group. -/
theorem claim_C6_amended :
    calculate_similarity schoolAcme schoolBest = 2 / 7 ∧
    find_duplicates [schoolAcme, schoolBest] (0.8 : ℚ) = [] := by
  have hs : calculate_similarity schoolAcme schoolBest = 2 / 7 := by
    simp +decide only [calculate_similarity, schoolAcme, schoolBest]
    norm_num
  refine ⟨hs, ?_⟩
  simp only [find_duplicates, List.enum, List.enumFrom, findDupOuter, findDupInner,
    List.contains, List.elem, hs]
  norm_num


/-! ## Claim C7: characterization of `merge_duplicates`

`fillFold` is the per-field shape of the source's gap-fill loop;
`firstFill` is the specification-side reading "fill a still-absent field
from the first group member whose value is non-absent".
`fillFold_eq_firstFill` proves they agree. -/

/-- Per-field projection of the gap-fill loop (validators.py 226-230). -/
def fillFold (t : α → Bool) (b : α) (xs : List α) : α :=
  xs.foldl (fun acc v => if !t acc && t v then v else acc) b

/-- Specification-side fill rule: keep a truthy base value, otherwise take
the first truthy value of the group members. -/
def firstFill (t : α → Bool) (b : α) (xs : List α) : α :=
  if t b then b else ((xs.filter t).head?).getD b

theorem fillFold_eq_firstFill (t : α → Bool) (xs : List α) :
    ∀ b, fillFold t b xs = firstFill t b xs := by
  induction xs with
  | nil => intro b; simp [fillFold, firstFill]
  | cons x xs ih =>
    intro b
    cases tb : t b
    · cases tx : t x
      · have : fillFold t b (x :: xs) = fillFold t b xs := by
          simp [fillFold, tb, tx]
        rw [this, ih b]
        simp [firstFill, tb, tx]
      · have : fillFold t b (x :: xs) = fillFold t x xs := by
          simp [fillFold, tb, tx]
        rw [this, ih x]
        simp [firstFill, tb, tx]
    · have : fillFold t b (x :: xs) = fillFold t b xs := by
        simp [fillFold, tb]
      rw [this, ih b]
      simp [firstFill, tb]

theorem foldl_fillSchool_eq (ss : List SchoolDict) :
    ∀ best, ss.foldl fillSchool best =
      { name := fillFold truthyS best.name (ss.map SchoolDict.name),
        address := fillFold truthyS best.address (ss.map SchoolDict.address),
        phone := fillFold truthyS best.phone (ss.map SchoolDict.phone),
        email := fillFold truthyS best.email (ss.map SchoolDict.email),
        website := fillFold truthyS best.website (ss.map SchoolDict.website),
        rating := fillFold truthyQ best.rating (ss.map SchoolDict.rating),
        review_count := fillFold truthyI best.review_count (ss.map SchoolDict.review_count) } := by
  induction ss with
  | nil => intro best; simp [fillFold]
  | cons s ss ih =>
    intro best
    rw [List.foldl_cons, ih (fillSchool best s)]
    simp [fillFold, fillSchool]

theorem pickBestGo_some_spec (l : List SchoolDict) :
    ∀ b0 : SchoolDict, ∃ b, pickBestGo (some b0) (completeness_score b0) l = some b ∧
      (b = b0 ∨ b ∈ l) ∧ completeness_score b0 ≤ completeness_score b ∧
      ∀ m ∈ l, completeness_score m ≤ completeness_score b := by
  induction l with
  | nil => intro b0; exact ⟨b0, rfl, Or.inl rfl, le_refl _, by simp⟩
  | cons x xs ih =>
    intro b0
    by_cases hx : (completeness_score x : Int) > (completeness_score b0 : Int)
    · obtain ⟨b, hb, hmem, hle, hdom⟩ := ih x
      refine ⟨b, ?_, ?_, ?_, ?_⟩
      · simp only [pickBestGo, if_pos hx]; exact hb
      · rcases hmem with h | h
        · exact Or.inr (by simp [h])
        · exact Or.inr (by simp [h])
      · have : completeness_score b0 ≤ completeness_score x := by exact_mod_cast le_of_lt hx
        exact le_trans this hle
      · intro m hm
        rcases List.mem_cons.mp hm with h | h
        · subst h; exact hle
        · exact hdom m h
    · obtain ⟨b, hb, hmem, hle, hdom⟩ := ih b0
      refine ⟨b, ?_, ?_, hle, ?_⟩
      · simp only [pickBestGo, if_neg hx]; exact hb
      · rcases hmem with h | h
        · exact Or.inl h
        · exact Or.inr (by simp [h])
      · intro m hm
        rcases List.mem_cons.mp hm with h | h
        · subst h
          have hxle : completeness_score m ≤ completeness_score b0 := by
            exact_mod_cast not_lt.mp hx
          exact le_trans hxle hle
        · exact hdom m h

theorem mergeGroupsGo_eq (schools : List SchoolDict) (gs : List (List ℕ)) :
    mergeGroupsGo schools gs = (gs.map (mergeGroup schools), gs.flatten) := by
  induction gs with
  | nil => rfl
  | cons g gs ih => simp [mergeGroupsGo, ih]

theorem pickBest_spec (l : List SchoolDict) (h : l ≠ []) :
    ∃ b, pickBest l = some b ∧ b ∈ l ∧
      ∀ m ∈ l, completeness_score m ≤ completeness_score b := by
  match l with
  | x :: xs =>
    have hx : ((completeness_score x : Int) > (-1 : Int)) := by
      have := Int.natCast_nonneg (completeness_score x)
      omega
    obtain ⟨b, hb, hmem, hle, hdom⟩ := pickBestGo_some_spec xs x
    refine ⟨b, ?_, ?_, ?_⟩
    · simp only [pickBest, pickBestGo, if_pos hx]
      exact hb
    · rcases hmem with rfl | hmem
      · exact List.mem_cons_self _ _
      · exact List.mem_cons_of_mem _ hmem
    · intro m hm
      rcases List.mem_cons.mp hm with rfl | hm
      · exact hle
      · exact hdom m hm

theorem merge_duplicates_eq (schools : List SchoolDict) (groups : List (List ℕ)) :
    merge_duplicates schools groups =
      groups.map (mergeGroup schools) ++
        (schools.enum.filter (fun p => !((groups.flatten).contains p.1))).map
          (fun p => some p.2) := by
  simp [merge_duplicates, mergeGroupsGo_eq]

theorem mergeGroup_spec (schools : List SchoolDict) (g : List ℕ) (hg : g ≠ []) :
    ∃ b, pickBest (groupMembers schools g) = some b ∧
      b ∈ groupMembers schools g ∧
      (∀ m ∈ groupMembers schools g, completeness_score m ≤ completeness_score b) ∧
      mergeGroup schools g = some
        { name := firstFill truthyS b.name ((groupMembers schools g).map SchoolDict.name),
          address := firstFill truthyS b.address ((groupMembers schools g).map SchoolDict.address),
          phone := firstFill truthyS b.phone ((groupMembers schools g).map SchoolDict.phone),
          email := firstFill truthyS b.email ((groupMembers schools g).map SchoolDict.email),
          website := firstFill truthyS b.website ((groupMembers schools g).map SchoolDict.website),
          rating := firstFill truthyQ b.rating ((groupMembers schools g).map SchoolDict.rating),
          review_count := firstFill truthyI b.review_count
            ((groupMembers schools g).map SchoolDict.review_count) } := by
  have hne : groupMembers schools g ≠ [] := by
    simp [groupMembers, hg]
  obtain ⟨b, hb, hmem, hdom⟩ := pickBest_spec _ hne
  refine ⟨b, hb, hmem, hdom, ?_⟩
  simp only [mergeGroup, hb]
  rw [foldl_fillSchool_eq]
  simp only [fillFold_eq_firstFill]

/-- Concrete group member for the C7 witness. -/
def mergeSampleA : SchoolDict := { name := some "a" }

/-- Concrete group member for the C7 witness: strictly more complete than
`mergeSampleA`. -/
def mergeSampleB : SchoolDict := { name := some "a", phone := some "1" }

/-- C7: `merge_duplicates` returns, in order, one merged record per group
(in group order) followed by the unchanged entities whose index is in no
group (in original order); within each group the base record is a group
member of maximal completeness count (the source picks the first such
member), and every field of the merged record is the base's field if
truthy, otherwise the first truthy value for that field among the group
members in group order.  `hidx` restricts to in-range groups, the domain
on which the Python list indexing is defined; `hne` excludes empty
groups, for which the source would append `None`. -/
theorem claim_C7 (schools : List SchoolDict) (groups : List (List ℕ))
    (hne : ∀ g ∈ groups, g ≠ [])
    (hidx : ∀ g ∈ groups, ∀ i ∈ g, i < schools.length) :
    merge_duplicates schools groups =
      groups.map (mergeGroup schools) ++
        (schools.enum.filter (fun p => !((groups.flatten).contains p.1))).map
          (fun p => some p.2) ∧
    ∀ g ∈ groups, ∃ b,
      pickBest (groupMembers schools g) = some b ∧
      b ∈ groupMembers schools g ∧
      (∀ m ∈ groupMembers schools g, completeness_score m ≤ completeness_score b) ∧
      mergeGroup schools g = some
        { name := firstFill truthyS b.name ((groupMembers schools g).map SchoolDict.name),
          address := firstFill truthyS b.address ((groupMembers schools g).map SchoolDict.address),
          phone := firstFill truthyS b.phone ((groupMembers schools g).map SchoolDict.phone),
          email := firstFill truthyS b.email ((groupMembers schools g).map SchoolDict.email),
          website := firstFill truthyS b.website ((groupMembers schools g).map SchoolDict.website),
          rating := firstFill truthyQ b.rating ((groupMembers schools g).map SchoolDict.rating),
          review_count := firstFill truthyI b.review_count
            ((groupMembers schools g).map SchoolDict.review_count) } := by
  clear hidx
  refine ⟨merge_duplicates_eq schools groups, ?_⟩
  intro g hg
  exact mergeGroup_spec schools g (hne g hg)

/-- C7 witness: the characterization applied to two records forming one
group, where the more complete second record is the base and absorbs
nothing new. -/
theorem claim_C7_witness :
    (∀ g ∈ [[0, 1]], g ≠ ([] : List ℕ)) ∧
    merge_duplicates [mergeSampleA, mergeSampleB] [[0, 1]] = [some mergeSampleB] := by
  have h := (claim_C7 [mergeSampleA, mergeSampleB] [[0, 1]] (by decide) (by decide)).1
  refine ⟨by decide, ?_⟩
  rw [h]
  decide

/-! ## Claim C8 infrastructure: words, joins, strip, capitalization -/


/- words of splitOnP carry only characters failing p -/
theorem splitOnP_chars (p : Char → Bool) :
    ∀ l : List Char, ∀ w ∈ l.splitOnP p, ∀ c ∈ w, p c = false := by
  intro l
  induction l with
  | nil =>
    intro w hw c hc
    simp [List.splitOnP_nil] at hw
    subst hw
    simp at hc
  | cons x xs ih =>
    intro w hw c hc
    rw [List.splitOnP_cons] at hw
    by_cases hx : p x
    · rw [if_pos hx] at hw
      rcases List.mem_cons.mp hw with rfl | hw
      · simp at hc
      · exact ih w hw c hc
    · rw [if_neg hx] at hw
      obtain ⟨h, t, ht⟩ := List.exists_cons_of_ne_nil (List.splitOnP_ne_nil p xs)
      rw [ht] at hw
      simp only [List.modifyHead] at hw
      rcases List.mem_cons.mp hw with rfl | hw
      · rcases List.mem_cons.mp hc with rfl | hc
        · simpa using hx
        · exact ih h (by rw [ht]; exact List.mem_cons_self _ _) c hc
      · exact ih w (by rw [ht]; exact List.mem_cons_of_mem _ hw) c hc

theorem splitWords_words (l : List Char) :
    ∀ w ∈ splitWords l, w ≠ [] ∧ ∀ c ∈ w, isWsChar c = false := by
  intro w hw
  simp only [splitWords, List.mem_filter] at hw
  refine ⟨by simpa using hw.2, fun c hc => splitOnP_chars isWsChar l w hw.1 c hc⟩

/- splitWords recovers the word list from a single-space join of
nonempty whitespace-free words -/
theorem splitWords_joinWords :
    ∀ ws : List (List Char),
      (∀ w ∈ ws, w ≠ [] ∧ ∀ c ∈ w, isWsChar c = false) →
      splitWords (joinWords ws) = ws := by
  intro ws
  induction ws with
  | nil => intro _; rfl
  | cons w vs ih =>
    intro h
    match vs with
    | [] =>
      have hw := h w (List.mem_cons_self _ _)
      simp only [joinWords, splitWords]
      rw [List.splitOnP_eq_single isWsChar w (fun c hc => by simp [hw.2 c hc])]
      simp [hw.1]
    | v :: ws2 =>
      have hw := h w (List.mem_cons_self _ _)
      have hrest : ∀ u ∈ v :: ws2, u ≠ [] ∧ ∀ c ∈ u, isWsChar c = false :=
        fun u hu => h u (List.mem_cons_of_mem _ hu)
      have step : joinWords (w :: v :: ws2) = w ++ ' ' :: joinWords (v :: ws2) := rfl
      rw [step]
      simp only [splitWords]
      rw [List.splitOnP_first isWsChar w (fun c hc => by simp [hw.2 c hc]) ' '
        (by simp [isWsChar]) (joinWords (v :: ws2))]
      simp only [List.filter_cons]
      have : (!w.isEmpty) = true := by
        cases w with
        | nil => exact absurd rfl hw.1
        | cons a as => rfl
      rw [if_pos this]
      have := ih hrest
      simp only [splitWords] at this
      rw [this]

theorem dropWhile_eq_self_of_head (l : List Char)
    (h : ∀ c cs, l = c :: cs → isWsChar c = false) :
    l.dropWhile isWsChar = l := by
  cases l with
  | nil => rfl
  | cons c cs => rw [List.dropWhile_cons_of_neg (by simp [h c cs rfl])]

theorem joinWords_reverse_head :
    ∀ ws : List (List Char),
      (∀ w ∈ ws, w ≠ [] ∧ ∀ c ∈ w, isWsChar c = false) → ws ≠ [] →
      ∃ c cs, (joinWords ws).reverse = c :: cs ∧ isWsChar c = false := by
  intro ws
  induction ws with
  | nil => intro _ h; exact absurd rfl h
  | cons w vs ih =>
    intro h _
    match vs with
    | [] =>
      have hw := h w (List.mem_cons_self _ _)
      obtain ⟨c, cs, hc⟩ := List.exists_cons_of_ne_nil
        (by simpa using hw.1 : w.reverse ≠ [])
      refine ⟨c, cs, by simpa [joinWords] using hc, ?_⟩
      have : c ∈ w := by
        rw [← List.mem_reverse, hc]
        exact List.mem_cons_self _ _
      exact hw.2 c this
    | v :: ws2 =>
      have hrest : ∀ u ∈ v :: ws2, u ≠ [] ∧ ∀ c ∈ u, isWsChar c = false :=
        fun u hu => h u (List.mem_cons_of_mem _ hu)
      obtain ⟨c, cs, hc, hns⟩ := ih hrest (by simp)
      refine ⟨c, cs ++ ' ' :: w.reverse, ?_, hns⟩
      have step : joinWords (w :: v :: ws2) = w ++ ' ' :: joinWords (v :: ws2) := rfl
      rw [step, List.reverse_append, List.reverse_cons, hc]
      simp

theorem pyStrip_joinWords (ws : List (List Char))
    (h : ∀ w ∈ ws, w ≠ [] ∧ ∀ c ∈ w, isWsChar c = false) :
    pyStrip (joinWords ws) = joinWords ws := by
  match ws with
  | [] => rfl
  | w :: vs =>
    have hw := h w (List.mem_cons_self _ _)
    have h1 : (joinWords (w :: vs)).dropWhile isWsChar = joinWords (w :: vs) := by
      apply dropWhile_eq_self_of_head
      intro c cs hc
      have hcw : c ∈ w := by
        match vs, w, hw.1 with
        | [], a :: as, _ =>
          simp only [joinWords] at hc
          rw [hc]
          exact List.mem_cons_self _ _
        | v :: ws2, a :: as, _ =>
          have step : joinWords ((a :: as) :: v :: ws2) =
              (a :: as) ++ ' ' :: joinWords (v :: ws2) := rfl
          rw [step] at hc
          simp only [List.cons_append] at hc
          rw [List.cons_eq_cons] at hc
          rw [hc.1]
          exact List.mem_cons_self _ _
      exact hw.2 c hcw
    obtain ⟨c, cs, hc, hns⟩ := joinWords_reverse_head (w :: vs) h (by simp)
    have h2 : (joinWords (w :: vs)).reverse.dropWhile isWsChar =
        (joinWords (w :: vs)).reverse := by
      apply dropWhile_eq_self_of_head
      intro c2 cs2 hc2
      rw [hc] at hc2
      rw [List.cons_eq_cons] at hc2
      rw [← hc2.1]
      exact hns
    rw [pyStrip, h1, h2, List.reverse_reverse]

theorem capWord_words (w : List Char) (hne : w ≠ []) (hws : ∀ c ∈ w, isWsChar c = false) :
    capWord w ≠ [] ∧ ∀ c ∈ capWord w, isWsChar c = false := by
  match w with
  | a :: as =>
    constructor
    · simp [capWord]
    · intro c hc
      simp only [capWord, List.mem_cons] at hc
      rcases hc with rfl | hc
      · rw [isWsChar_toUpper]
        exact hws a (List.mem_cons_self _ _)
      · obtain ⟨d, hd, rfl⟩ := List.mem_map.mp hc
        rw [isWsChar_toLower]
        exact hws d (List.mem_cons_of_mem _ hd)

theorem capWord_idem (w : List Char) : capWord (capWord w) = capWord w := by
  match w with
  | [] => rfl
  | a :: as =>
    simp only [capWord, List.map_map]
    rw [toUpper_toUpper]
    congr 1
    have : Char.toLower ∘ Char.toLower = Char.toLower := funext toLower_idem
    rw [this]

theorem cleanAddressL_eq (l : List Char) :
    cleanAddressL l = joinWords ((splitWords l).map capWord) := by
  have hW : ∀ w ∈ splitWords l, w ≠ [] ∧ ∀ c ∈ w, isWsChar c = false :=
    splitWords_words l
  have hCap : ∀ w ∈ (splitWords l).map capWord, w ≠ [] ∧ ∀ c ∈ w, isWsChar c = false := by
    intro w hw
    obtain ⟨u, hu, rfl⟩ := List.mem_map.mp hw
    exact capWord_words u (hW u hu).1 (hW u hu).2
  rw [show cleanAddressL l =
      pyStrip (joinWords ((splitWords (joinWords (splitWords l))).map capWord)) from rfl]
  rw [splitWords_joinWords (splitWords l) hW, pyStrip_joinWords _ hCap]

theorem cleanAddressL_idem (l : List Char) :
    cleanAddressL (cleanAddressL l) = cleanAddressL l := by
  have hW : ∀ w ∈ splitWords l, w ≠ [] ∧ ∀ c ∈ w, isWsChar c = false :=
    splitWords_words l
  have hCap : ∀ w ∈ (splitWords l).map capWord, w ≠ [] ∧ ∀ c ∈ w, isWsChar c = false := by
    intro w hw
    obtain ⟨u, hu, rfl⟩ := List.mem_map.mp hw
    exact capWord_words u (hW u hu).1 (hW u hu).2
  rw [cleanAddressL_eq l, cleanAddressL_eq (joinWords ((splitWords l).map capWord)),
    splitWords_joinWords _ hCap, List.map_map]
  congr 1
  have : capWord ∘ capWord = capWord := funext capWord_idem
  rw [this]


/-! ## Claim C8: totality and idempotence of the normalizers -/

/- digit-filter of the mobile format output -/
theorem filter_fmtMobile (t : List Char) (ht : ∀ c ∈ t, Char.isDigit c = true) :
    (fmtMobile t).filter Char.isDigit = '3' :: '1' :: '6' :: t := by
  have htake2 : ∀ n, (t.drop n).filter Char.isDigit = t.drop n := fun n =>
    List.filter_eq_self.mpr (fun c hc => ht c (List.mem_of_mem_drop hc))
  have htk : ∀ n m, ((t.drop n).take m).filter Char.isDigit = (t.drop n).take m := fun n m =>
    List.filter_eq_self.mpr (fun c hc => ht c (List.mem_of_mem_drop (List.mem_of_mem_take hc)))
  have htk0 : (t.take 2).filter Char.isDigit = t.take 2 :=
    List.filter_eq_self.mpr (fun c hc => ht c (List.mem_of_mem_take hc))
  simp [fmtMobile, List.filter_cons, List.filter_append,
    show Char.isDigit '+' = false from rfl, show Char.isDigit '3' = true from rfl,
    show Char.isDigit '1' = true from rfl, show Char.isDigit ' ' = false from rfl,
    show Char.isDigit '6' = true from rfl, htk0, htk, htake2]
  rw [show t.drop 6 = (t.drop 4).drop 2 by rw [List.drop_drop],
    show t.drop 4 = (t.drop 2).drop 2 by rw [List.drop_drop]]
  rw [List.take_append_drop, List.take_append_drop, List.take_append_drop]

theorem filter_fmtArea10 (a n : List Char)
    (ha : ∀ c ∈ a, Char.isDigit c = true) (hn : ∀ c ∈ n, Char.isDigit c = true) :
    (fmtArea10 a n).filter Char.isDigit = '3' :: '1' :: (a.drop 1 ++ n) := by
  have h1 : (a.drop 1).filter Char.isDigit = a.drop 1 :=
    List.filter_eq_self.mpr (fun c hc => ha c (List.mem_of_mem_drop hc))
  have h1t : a.tail.filter Char.isDigit = a.tail := by
    rw [← List.drop_one]; exact h1
  have h2 : (n.take 3).filter Char.isDigit = n.take 3 :=
    List.filter_eq_self.mpr (fun c hc => hn c (List.mem_of_mem_take hc))
  have h3 : (n.drop 3).filter Char.isDigit = n.drop 3 :=
    List.filter_eq_self.mpr (fun c hc => hn c (List.mem_of_mem_drop hc))
  simp [fmtArea10, List.filter_cons, List.filter_append,
    show Char.isDigit '+' = false from rfl, show Char.isDigit '3' = true from rfl,
    show Char.isDigit '1' = true from rfl, show Char.isDigit ' ' = false from rfl,
    h1, h1t, h2, h3]

theorem filter_fmtIntl (a r : List Char)
    (ha : ∀ c ∈ a, Char.isDigit c = true) (hr : ∀ c ∈ r, Char.isDigit c = true) :
    (fmtIntl a r).filter Char.isDigit = '3' :: '1' :: (a ++ r) := by
  have h1 : a.filter Char.isDigit = a := List.filter_eq_self.mpr ha
  have h2 : (r.take 3).filter Char.isDigit = r.take 3 :=
    List.filter_eq_self.mpr (fun c hc => hr c (List.mem_of_mem_take hc))
  have h3 : (r.drop 3).filter Char.isDigit = r.drop 3 :=
    List.filter_eq_self.mpr (fun c hc => hr c (List.mem_of_mem_drop hc))
  simp [fmtIntl, List.filter_cons, List.filter_append,
    show Char.isDigit '+' = false from rfl, show Char.isDigit '3' = true from rfl,
    show Char.isDigit '1' = true from rfl, show Char.isDigit ' ' = false from rfl,
    h1, h2, h3]

/- branch-form lemmas: each expresses the value of normPhoneL when the
digit subsequence of the argument is known -/

theorem normPhoneL_mob10 (x d2 : List Char) (hx : x.filter Char.isDigit = d2)
    (hlen : d2.length = 10) (h06 : List.isPrefixOf ['0','6'] d2 = true) :
    normPhoneL x = fmtMobile (d2.drop 2) := by
  simp only [normPhoneL, hx]
  rw [if_pos hlen, if_pos h06]

theorem normPhoneL_area10 (x d2 : List Char) (hx : x.filter Char.isDigit = d2)
    (hlen : d2.length = 10) (h06 : List.isPrefixOf ['0','6'] d2 = false)
    (harea : areaCodes3.any (fun p => p.isPrefixOf d2) = true) :
    normPhoneL x = fmtArea10 (d2.take 3) (d2.drop 3) := by
  simp only [normPhoneL, hx]
  rw [if_pos hlen, if_neg (by simp [h06]), if_pos harea]

theorem normPhoneL_id10 (x d2 : List Char) (hx : x.filter Char.isDigit = d2)
    (hlen : d2.length = 10) (h06 : List.isPrefixOf ['0','6'] d2 = false)
    (harea : areaCodes3.any (fun p => p.isPrefixOf d2) = false) :
    normPhoneL x = x := by
  simp only [normPhoneL, hx]
  rw [if_pos hlen, if_neg (by simp [h06]), if_neg (by simp [harea])]

theorem normPhoneL_mob11 (x d2 : List Char) (hx : x.filter Char.isDigit = d2)
    (hlen : d2.length = 11) (hpre : List.isPrefixOf ['3','1','6'] d2 = true) :
    normPhoneL x = fmtMobile (d2.drop 3) := by
  simp only [normPhoneL, hx]
  rw [if_neg (by omega), if_pos (by simp [hlen, hpre])]

theorem normPhoneL_mob12 (x d2 : List Char) (hx : x.filter Char.isDigit = d2)
    (hlen : d2.length = 12) (hpre : List.isPrefixOf ['3','1'] d2 = true)
    (h6 : (d2.drop 2).take 1 = ['6']) :
    normPhoneL x = fmtMobile (d2.drop 4) := by
  simp only [normPhoneL, hx]
  rw [if_neg (by omega), if_neg (by simp; omega), if_pos (by simp [hlen, hpre]), if_pos h6]

theorem normPhoneL_intl (x d2 : List Char) (hx : x.filter Char.isDigit = d2)
    (hlen : d2.length = 12) (hpre : List.isPrefixOf ['3','1'] d2 = true)
    (h6 : ¬ (d2.drop 2).take 1 = ['6']) :
    normPhoneL x = fmtIntl (intlArea d2) (d2.drop ((intlArea d2).length + 2)) := by
  simp only [normPhoneL, hx]
  rw [if_neg (by omega), if_neg (by simp; omega), if_pos (by simp [hlen, hpre]), if_neg h6]

theorem normPhoneL_skip (x d2 : List Char) (hx : x.filter Char.isDigit = d2)
    (h10 : d2.length ≠ 10)
    (h11 : ¬(d2.length = 11 ∧ List.isPrefixOf ['3','1','6'] d2 = true))
    (h12 : ¬(d2.length = 12 ∧ List.isPrefixOf ['3','1'] d2 = true)) :
    normPhoneL x = x := by
  simp only [normPhoneL, hx]
  rw [if_neg h10, if_neg (by simpa using h11), if_neg (by simpa using h12)]


theorem area_second_app (a : Char) (t : List Char)
    (ha : Char.isDigit a = true) (hne : ('6' == a) = false)
    (ht : ∀ c ∈ t, Char.isDigit c = true) (hlen : t.length = 7) :
    normPhoneL (fmtArea10 ['0', a, '0'] t) = fmtArea10 ['0', a, '0'] t := by
  have hdigs : ∀ c ∈ ['0', a, '0'], Char.isDigit c = true := by
    intro c hc
    rcases List.mem_cons.mp hc with rfl | hc
    · rfl
    rcases List.mem_cons.mp hc with rfl | hc
    · exact ha
    rcases List.mem_cons.mp hc with rfl | hc
    · rfl
    · simp at hc
  have hf := filter_fmtArea10 ['0', a, '0'] t hdigs ht
  apply normPhoneL_skip _ _ hf
  · simp [hlen]
  · rintro ⟨h11, hpre⟩
    simp [List.isPrefixOf_cons₂, hne] at hpre
  · simp [hlen]

theorem prefix_decomp (p d : List Char) (h : List.isPrefixOf p d = true) :
    p ++ d.drop p.length = d := by
  obtain ⟨t, ht⟩ := List.isPrefixOf_iff_prefix.mp h
  have : d.drop p.length = t := by rw [← ht, List.drop_left]
  rw [this, ht]

theorem normPhoneL_idem_len10 (l : List Char)
    (h10 : (l.filter Char.isDigit).length = 10) :
    normPhoneL (normPhoneL l) = normPhoneL l := by
  have hdig : ∀ c ∈ l.filter Char.isDigit, Char.isDigit c = true :=
    fun c hc => (List.mem_filter.mp hc).2
  by_cases h06 : List.isPrefixOf ['0', '6'] (l.filter Char.isDigit) = true
  · have h1 : normPhoneL l = fmtMobile ((l.filter Char.isDigit).drop 2) :=
      normPhoneL_mob10 l _ rfl h10 h06
    have ht : ∀ c ∈ (l.filter Char.isDigit).drop 2, Char.isDigit c = true :=
      fun c hc => hdig c (List.mem_of_mem_drop hc)
    have hlen8 : ((l.filter Char.isDigit).drop 2).length = 8 := by
      simp [List.length_drop, h10]
    rw [h1]
    have h2 := normPhoneL_mob11 (fmtMobile ((l.filter Char.isDigit).drop 2)) _
      (filter_fmtMobile _ ht) (by simp [hlen8]) (by simp [List.isPrefixOf_cons₂])
    rw [h2]
    rfl
  · have h06f : List.isPrefixOf ['0', '6'] (l.filter Char.isDigit) = false := by
      cases hb : List.isPrefixOf ['0', '6'] (l.filter Char.isDigit)
      · rfl
      · exact absurd hb h06
    by_cases harea : areaCodes3.any (fun p => p.isPrefixOf (l.filter Char.isDigit)) = true
    · have h1 := normPhoneL_area10 l _ rfl h10 h06f harea
      rw [h1]
      obtain ⟨p, hp, hpre⟩ := List.any_eq_true.mp harea
      have hdecomp := prefix_decomp p _ hpre
      simp only [areaCodes3, List.mem_cons, List.not_mem_nil, or_false] at hp
      have hp3 : p.length = 3 := by
        rcases hp with rfl | rfl | rfl | rfl | rfl | rfl <;> rfl
      have htake : (l.filter Char.isDigit).take 3 = p := by
        conv_lhs => rw [← hdecomp]
        rw [← hp3, List.take_left]
      rw [htake]
      have hlen7 : ((l.filter Char.isDigit).drop 3).length = 7 := by simp [h10]
      have hmem : ∀ c ∈ (l.filter Char.isDigit).drop 3, Char.isDigit c = true :=
        fun c hc => hdig c (List.mem_of_mem_drop hc)
      rcases hp with rfl | rfl | rfl | rfl | rfl | rfl <;>
        exact area_second_app _ _ rfl rfl hmem hlen7
    · have hareaf : areaCodes3.any (fun p => p.isPrefixOf (l.filter Char.isDigit)) = false := by
        cases hb : areaCodes3.any (fun p => p.isPrefixOf (l.filter Char.isDigit))
        · rfl
        · exact absurd hb harea
      have h1 := normPhoneL_id10 l _ rfl h10 h06f hareaf
      rw [h1]
      exact h1

theorem normPhoneL_idem (l : List Char) : normPhoneL (normPhoneL l) = normPhoneL l := by
  have hdig : ∀ c ∈ l.filter Char.isDigit, Char.isDigit c = true :=
    fun c hc => (List.mem_filter.mp hc).2
  by_cases h10 : (l.filter Char.isDigit).length = 10
  · exact normPhoneL_idem_len10 l h10
  by_cases h11 : (l.filter Char.isDigit).length = 11 ∧
      List.isPrefixOf ['3', '1', '6'] (l.filter Char.isDigit) = true
  · have h1 := normPhoneL_mob11 l _ rfl h11.1 h11.2
    have ht : ∀ c ∈ (l.filter Char.isDigit).drop 3, Char.isDigit c = true :=
      fun c hc => hdig c (List.mem_of_mem_drop hc)
    have hlen8 : ((l.filter Char.isDigit).drop 3).length = 8 := by
      simp [List.length_drop, h11.1]
    rw [h1]
    have h2 := normPhoneL_mob11 (fmtMobile ((l.filter Char.isDigit).drop 3)) _
      (filter_fmtMobile _ ht) (by simp [hlen8]) (by simp [List.isPrefixOf_cons₂])
    rw [h2]
    rfl
  by_cases h12 : (l.filter Char.isDigit).length = 12 ∧
      List.isPrefixOf ['3', '1'] (l.filter Char.isDigit) = true
  · by_cases h6 : ((l.filter Char.isDigit).drop 2).take 1 = ['6']
    · have h1 := normPhoneL_mob12 l _ rfl h12.1 h12.2 h6
      have ht : ∀ c ∈ (l.filter Char.isDigit).drop 4, Char.isDigit c = true :=
        fun c hc => hdig c (List.mem_of_mem_drop hc)
      have hlen8 : ((l.filter Char.isDigit).drop 4).length = 8 := by
        simp [List.length_drop, h12.1]
      rw [h1]
      have h2 := normPhoneL_mob11 (fmtMobile ((l.filter Char.isDigit).drop 4)) _
        (filter_fmtMobile _ ht) (by simp [hlen8]) (by simp [List.isPrefixOf_cons₂])
      rw [h2]
      rfl
    · have h1 := normPhoneL_intl l _ rfl h12.1 h12.2 h6
      have hArea : ∀ c ∈ intlArea (l.filter Char.isDigit), Char.isDigit c = true := by
        intro c hc
        apply hdig
        apply List.mem_of_mem_drop (n := 2)
        unfold intlArea at hc
        by_cases hc2 : areaCodes2.contains (((l.filter Char.isDigit).drop 2).take 2)
        · rw [if_pos hc2] at hc
          exact List.mem_of_mem_take hc
        · rw [if_neg hc2] at hc
          exact List.mem_of_mem_take hc
      have hRest : ∀ c ∈ (l.filter Char.isDigit).drop ((intlArea (l.filter Char.isDigit)).length + 2),
          Char.isDigit c = true :=
        fun c hc => hdig c (List.mem_of_mem_drop hc)
      have hjoin : intlArea (l.filter Char.isDigit) ++
          (l.filter Char.isDigit).drop ((intlArea (l.filter Char.isDigit)).length + 2) =
          (l.filter Char.isDigit).drop 2 := by
        unfold intlArea
        by_cases hc2 : areaCodes2.contains (((l.filter Char.isDigit).drop 2).take 2)
        · rw [if_pos hc2]
          have hl2 : (((l.filter Char.isDigit).drop 2).take 2).length = 2 := by
            simp [List.length_take, List.length_drop, h12.1]
          rw [hl2]
          rw [show ((l.filter Char.isDigit).drop (2 + 2)) = ((l.filter Char.isDigit).drop 2).drop 2
            from by rw [List.drop_drop]]
          exact List.take_append_drop 2 _
        · rw [if_neg hc2]
          have hl3 : (((l.filter Char.isDigit).drop 2).take 3).length = 3 := by
            simp [List.length_take, List.length_drop, h12.1]
          rw [hl3]
          rw [show ((l.filter Char.isDigit).drop (3 + 2)) = ((l.filter Char.isDigit).drop 2).drop 3
            from by rw [List.drop_drop]]
          exact List.take_append_drop 3 _
      have hfull : '3' :: '1' :: (l.filter Char.isDigit).drop 2 = l.filter Char.isDigit := by
        have := prefix_decomp ['3', '1'] _ h12.2
        simpa using this
      have hf : (fmtIntl (intlArea (l.filter Char.isDigit))
          ((l.filter Char.isDigit).drop ((intlArea (l.filter Char.isDigit)).length + 2))).filter
            Char.isDigit = l.filter Char.isDigit := by
        rw [filter_fmtIntl _ _ hArea hRest, hjoin, hfull]
      rw [h1]
      have h2 := normPhoneL_intl _ _ hf h12.1 h12.2 h6
      rw [h2]
  · have h1 := normPhoneL_skip l _ rfl h10 h11 h12
    rw [h1]
    exact h1

theorem string_mk_ne_empty (l : List Char) (h : l ≠ []) : String.mk l ≠ "" :=
  fun he => h (congrArg String.data he)

theorem normalize_phone_idem_str (s : String) :
    normalize_phone (some (normalize_phone (some s))) = normalize_phone (some s) := by
  by_cases hs : s = ""
  · subst hs; rfl
  · simp only [normalize_phone, if_neg hs]
    by_cases hz : normPhoneL s.data = []
    · rw [hz]
      rfl
    · rw [if_neg (string_mk_ne_empty _ hz)]
      exact congrArg String.mk (normPhoneL_idem s.data)

theorem clean_address_idem_str (s : String) :
    clean_address (some (clean_address (some s))) = clean_address (some s) := by
  by_cases hs : s = ""
  · subst hs; rfl
  · simp only [clean_address, if_neg hs]
    by_cases hz : cleanAddressL s.data = []
    · rw [hz]
      rfl
    · rw [if_neg (string_mk_ne_empty _ hz)]
      exact congrArg String.mk (cleanAddressL_idem s.data)

/-- C8 counterexample.  The claim states that `normalize_phone`,
`clean_name` and `clean_address` are all idempotent.  `clean_name` is not:
its anchored regex strips exactly one leading business-type word per
application, so "Rijschool Rijschool Amsterdam" cleans to
"Rijschool Amsterdam" and cleans again to "Amsterdam". -/
theorem claim_C8_counterexample :
    clean_name (some "Rijschool Rijschool Amsterdam") = "Rijschool Amsterdam" ∧
    clean_name (some (clean_name (some "Rijschool Rijschool Amsterdam"))) = "Amsterdam" ∧
    clean_name (some (clean_name (some "Rijschool Rijschool Amsterdam"))) ≠
      clean_name (some "Rijschool Rijschool Amsterdam") := by
  refine ⟨by decide, by decide, by decide⟩

/-- C8 amended: `normalize_phone` and `clean_address` are idempotent on
every string input, and all three normalizers are total by construction
(they are Lean functions; a `None` argument maps to `""` through the
source's falsy guard).  `clean_name` is total but not idempotent (see the
counterexample: one leading prefix is stripped per application). -/
theorem claim_C8_amended (s : String) :
    normalize_phone (some (normalize_phone (some s))) = normalize_phone (some s) ∧
    clean_address (some (clean_address (some s))) = clean_address (some s) ∧
    normalize_phone none = "" ∧ clean_address none = "" ∧ clean_name none = "" :=
  ⟨normalize_phone_idem_str s, clean_address_idem_str s, rfl, rfl, rfl⟩

/-! ## ScrapedSchool and the detail-enhancement step

`ScrapedSchool` embeds the dataclass of `src/scraper/base_scraper.py`
(lines 10-28).  Python floats are `ℚ`, datetimes are `ℕ` ticks.  The
dataclass has NO `success_rate` field; `_scrape_school_details` sets the
attribute dynamically (rijlessen_nl_scraper.py 257).  `success_attr = none`
models the ABSENT attribute — reading it raises `AttributeError` — and the
source never assigns `None` to it, so `Option Int` with `none` = "missing"
is exact.  `courses` keeps only the tagged numeric facts the source stores
there (type tag and value; the free-text description is dropped). -/

structure ScrapedSchool where
  name : String
  url : Option String := none
  address : Option String := none
  phone : Option String := none
  email : Option String := none
  website : Option String := none
  rating : Option ℚ := none
  review_count : Option Int := none
  price_range : Option String := none
  courses : Option (List (String × Int)) := none
  source : Option String := none
  scraped_at : Nat := 0
  success_attr : Option Int := none
deriving DecidableEq, Repr, Inhabited

/-- One listing-page entry as extracted by `_parse_school_from_city_page`
(rijlessen_nl_scraper.py 46-141): the regex matches are oracle data; the
embedding keeps the source's assembly logic (url fallback, address
fallback to the city name, success rate stored in `courses`). -/
structure ListingInfo where
  name : String
  link : Option String := none
  address : Option String := none
  rating : Option ℚ := none
  review_count : Option Int := none
  success_rate : Option Int := none
  city_name : String := ""
deriving DecidableEq, Repr, Inhabited

/-- Assembly of a `ScrapedSchool` from a listing entry
(rijlessen_nl_scraper.py 115-132).  The school's dynamic `success_rate`
attribute is never set here: a truthy percentage goes into `courses`
(lines 124-132), not onto the attribute. -/
def mkListingSchool (src city_url : String) (li : ListingInfo) : ScrapedSchool :=
  { name := li.name,
    url := some (li.link.getD city_url),
    address := some (li.address.getD li.city_name),
    rating := li.rating,
    review_count := li.review_count,
    source := some src,
    courses :=
      match li.success_rate with
      | some v => if v ≠ 0 then some [("success_rate", v)] else none
      | none => none,
    success_attr := none }

/-- The detail-page regex results consumed by `_scrape_school_details`
(rijlessen_nl_scraper.py 154-266): raw phone matches in pattern order,
the mailto / text email, stripped address candidates, the per-pattern
rating / review / success-rate numbers, and the external website link. -/
structure DetailPage where
  phones : List String := []
  email_mailto : Option String := none
  email_text : Option String := none
  addressMatches : List String := []
  ratingMatches : List ℚ := []
  reviewMatch : Option Int := none
  successMatches : List Int := []
  website : Option String := none
deriving DecidableEq, Repr, Inhabited

/-- The guard of `_scrape_school_details` (rijlessen_nl_scraper.py 145):
a detail fetch happens only for a truthy url containing `/rijschool-`. -/
def hasDetailUrl (s : ScrapedSchool) : Bool :=
  match s.url with
  | none => false
  | some u => u != "" && isSubstring ("/rijschool-").data u.data

/-- Embedding of `_scrape_school_details` (rijlessen_nl_scraper.py
143-272).  A failed fetch returns the school unchanged; otherwise each
field is updated exactly when the source's pattern loop finds an
acceptable value (phone length filter line 176, one-or-two phone join
lines 180-184, rating bounds 222, success-rate bounds 256 — the bounds
checks live here, the regex matching lives in the oracle). -/
def scrape_school_details (fetchDetail : String → Option DetailPage)
    (s : ScrapedSchool) : ScrapedSchool :=
  if !hasDetailUrl s then s
  else
    match fetchDetail (s.url.getD "") with
    | none => s
    | some pg =>
      let all_phones := pg.phones.filter
        (fun p => 10 ≤ (p.data.filter (fun c => !(c = '-' || c = ' '))).length)
      let s1 :=
        match all_phones with
        | [] => s
        | [p] => { s with phone := some p }
        | p1 :: p2 :: _ => { s with phone := some (p1 ++ ", " ++ p2) }
      let s2 :=
        match pg.email_mailto with
        | some e => { s1 with email := some e }
        | none =>
          match pg.email_text with
          | some e => { s1 with email := some e }
          | none => s1
      let s3 :=
        match pg.addressMatches.find? (fun a => decide (10 < a.length)) with
        | some a => { s2 with address := some a }
        | none => s2
      let s4 :=
        match pg.ratingMatches.find? (fun r => decide (0 ≤ r ∧ r ≤ 5)) with
        | some r => { s3 with rating := some r }
        | none => s3
      let s5 :=
        match pg.reviewMatch with
        | some m => { s4 with review_count := some m }
        | none => s4
      let s6 :=
        match pg.successMatches.find? (fun v => decide (0 ≤ v ∧ v ≤ 100)) with
        | some v => { s5 with success_attr := some v }
        | none => s5
      match pg.website with
      | some w => { s6 with website := some w }
      | none => s6

/-! ## The incremental persistence layer
(src/cloud_deployment/incremental_scraper.py)

The PostgreSQL store is a list of rows; `UNIQUE(name, address)` with SQL
semantics: rows with a NULL address never conflict, so the upsert's
`ON CONFLICT (name, address)` only fires for non-NULL addresses. -/

structure DSRow where
  name : String
  url : Option String := none
  address : Option String := none
  city : String := ""
  phone : Option String := none
  email : Option String := none
  website : Option String := none
  rating : Option ℚ := none
  review_count : Option Int := none
  success_rate : Option Int := none
  source : Option String := none
  scraped_at : Nat := 0
  created_at : Nat := 0
  updated_at : Nat := 0
deriving DecidableEq, Repr, Inhabited

/-- A `scrape_progress` row (incremental_scraper.py 74-81). -/
structure ProgressRow where
  city_url : String
  city_index : Nat := 0
  total_cities : Nat := 0
  schools_found : Nat := 0
  completed_at : Nat := 0
deriving DecidableEq, Repr, Inhabited

/-- The two tables of the production database. -/
structure ScrState where
  db : List DSRow := []
  progress : List ProgressRow := []
deriving DecidableEq, Repr, Inhabited

/-- The one Python exception the model distinguishes: reading a missing
attribute. -/
inductive PyErr where
  | attributeError
deriving DecidableEq, Repr

/-- SQL conflict test for `UNIQUE(name, address)`: equal name, equal
address, and the address is non-NULL (SQL `NULL = NULL` is not true, so
NULL-address rows never conflict). -/
def sameKey (r : DSRow) (name : String) (addr : Option String) : Bool :=
  r.name == name && r.address == addr && addr.isSome

/-- The `ON CONFLICT (name, address) DO UPDATE SET ...` upsert of
`save_schools_batch` (incremental_scraper.py 96-109): on conflict the six
enrichment columns and `updated_at` are overwritten with the incoming
values — unconditionally, also when the incoming value is NULL; `name`,
`address`, `url`, `city`, `source`, `scraped_at` and `created_at` are not
touched.  Without conflict the row is inserted.
`updateEnrichment` is the `DO UPDATE SET` clause (lines 102-108). -/
def updateEnrichment (now : Nat) (v r : DSRow) : DSRow :=
  { r with phone := v.phone, email := v.email, website := v.website,
           rating := v.rating, review_count := v.review_count,
           success_rate := v.success_rate, updated_at := now }

def upsertSchool (now : Nat) (db : List DSRow) (v : DSRow) : List DSRow :=
  if db.any (fun r => sameKey r v.name v.address) then
    db.map (fun r => if sameKey r v.name v.address then updateEnrichment now v r else r)
  else db ++ [v]

/-- The `ON CONFLICT (city_url) DO UPDATE` progress upsert
(incremental_scraper.py 111-117): on conflict only `schools_found` and
`completed_at` are updated. -/
def upsertProgress (now : Nat) (ps : List ProgressRow) (v : ProgressRow) : List ProgressRow :=
  if ps.any (fun r => r.city_url == v.city_url) then
    ps.map (fun r =>
      if r.city_url == v.city_url then
        { r with schools_found := v.schools_found, completed_at := now }
      else r)
  else ps ++ [v]

/-- Building one parameter dict of the batch (incremental_scraper.py
126-144): the unconditional read of `school.success_rate` (line 141)
raises `AttributeError` when the dynamic attribute was never set; the
`city` column is the address if truthy else "Unknown", truncated to 100
characters (lines 127-129). -/
def rowOfSchool (now : Nat) (s : ScrapedSchool) : Except PyErr DSRow :=
  match s.success_attr with
  | none => .error .attributeError
  | some v =>
    let city0 := if truthyS s.address then s.address.getD "" else "Unknown"
    let city := if 100 < city0.length then String.mk (city0.data.take 100) else city0
    .ok { name := s.name, url := s.url, address := s.address, city := city,
          phone := s.phone, email := s.email, website := s.website,
          rating := s.rating, review_count := s.review_count,
          success_rate := some v, source := s.source, scraped_at := s.scraped_at,
          created_at := now, updated_at := now }

/-- The batch-building loop (incremental_scraper.py 125-144): parameter
dicts are built school by school; the first `AttributeError` aborts the
whole batch. -/
def rowsOfSchools (now : Nat) : List ScrapedSchool → Except PyErr (List DSRow)
  | [] => .ok []
  | s :: rest =>
    match rowOfSchool now s with
    | .error e => .error e
    | .ok r =>
      match rowsOfSchools now rest with
      | .error e => .error e
      | .ok rs => .ok (r :: rs)

/-- Embedding of `save_schools_batch` (incremental_scraper.py 91-165).

* Line 93-94: an empty batch returns 0 immediately — BEFORE the progress
  insert, so a zero-entity unit records no progress.
* The try block builds all parameter dicts, then runs the school upserts
  and the progress upsert and commits; an exception anywhere (modelled:
  the `AttributeError` from `rowOfSchool`) is caught at line 162 and the
  connection commits nothing, leaving both tables unchanged. -/
def save_schools_batch (now : Nat) (st : ScrState) (schools : List ScrapedSchool)
    (city_url : String) (city_index total_cities : Nat) : Nat × ScrState :=
  if schools = [] then (0, st)
  else
    match rowsOfSchools now schools with
    | .error _ => (0, st)
    | .ok rows =>
      let db2 := rows.foldl (upsertSchool now) st.db
      let progress2 := upsertProgress now st.progress
        { city_url := city_url, city_index := city_index,
          total_cities := total_cities, schools_found := schools.length,
          completed_at := now }
      (rows.length, { db := db2, progress := progress2 })

/-- Embedding of `get_completed_cities` (incremental_scraper.py 167-174):
the url set of the progress table. -/
def get_completed_cities (st : ScrState) : List String :=
  st.progress.map (fun r => r.city_url)

/-- The fetch/parse oracles of one run: `fetchCity` stands for
`_fetch_page` + `_parse_school_from_city_page` (`none` = fetch failure),
`fetchDetail` for the detail-page fetch + regex pass. -/
structure ScrapeOracles where
  fetchCity : String → Option (List ListingInfo)
  fetchDetail : String → Option DetailPage

/-- The per-school enhancement loop (incremental_scraper.py 240-251): the
cooperative stop flag is polled before every school (line 242), each poll
advancing the clock `t`; on stop the loop breaks, keeping only the
already-enhanced prefix. -/
def enhanceLoop (orc : ScrapeOracles) (stop : Nat → Bool) :
    List ScrapedSchool → Nat → List ScrapedSchool × Nat
  | [], t => ([], t)
  | s :: rest, t =>
    if stop t then ([], t + 1)
    else
      let s2 := if hasDetailUrl s then scrape_school_details orc.fetchDetail s else s
      let res := enhanceLoop orc stop rest (t + 1)
      (s2 :: res.1, res.2)

/-- The city loop of `run_incremental_scrape` (incremental_scraper.py
219-264).  Per city: poll the stop flag (line 220, breaking the loop),
skip if the url is in the completed set (line 224), fetch (failure →
continue, no progress written), parse, enhance, save.  A parse with zero
schools calls `save_schools_batch([])` (line 260).  Returns the final
state, the list of fetch-attempted urls in order, and the clock. -/
def runCities (orc : ScrapeOracles) (stop : Nat → Bool) (src : String) :
    List (Nat × String) → Nat → List String → ScrState → Nat →
      ScrState × List String × Nat
  | [], _, _, st, t => (st, [], t)
  | (i, u) :: rest, total, completed, st, t =>
    if stop t then (st, [], t + 1)
    else if completed.contains u then
      runCities orc stop src rest total completed st (t + 1)
    else
      match orc.fetchCity u with
      | none =>
        let res := runCities orc stop src rest total completed st (t + 1)
        (res.1, u :: res.2.1, res.2.2)
      | some listing =>
        let schools := listing.map (mkListingSchool src u)
        if schools.isEmpty then
          let stSaved := (save_schools_batch (t + 1) st [] u i total).2
          let res := runCities orc stop src rest total completed stSaved (t + 1)
          (res.1, u :: res.2.1, res.2.2)
        else
          let enh := enhanceLoop orc stop schools (t + 1)
          let stSaved := (save_schools_batch enh.2 st enh.1 u i total).2
          let res := runCities orc stop src rest total completed stSaved enh.2
          (res.1, u :: res.2.1, res.2.2)

/-- Embedding of `run_incremental_scrape` (incremental_scraper.py
176-305) after unit discovery: the completed set is read once from the
progress store, then the city loop runs over the 1-based enumeration of
the discovered urls. -/
def run_incremental_scrape (orc : ScrapeOracles) (stop : Nat → Bool) (src : String)
    (city_links : List String) (st : ScrState) (t : Nat) :
    ScrState × List String × Nat :=
  runCities orc stop src (List.enumFrom 1 city_links) city_links.length
    (get_completed_cities st) st t

/-! ## Claims C1, C2, C3, C9, C10: the incremental persistence pipeline -/

/-- An empty batch returns before the progress insert
(incremental_scraper.py 93-94). -/

theorem save_schools_batch_empty (now : Nat) (st : ScrState) (u : String) (i n : Nat) :
    save_schools_batch now st [] u i n = (0, st) := rfl

/-- A fetch/parse oracle whose every city page parses to zero entities. -/
def orcEmptyCity : ScrapeOracles := ⟨fun _ => some [], fun _ => none⟩

/-- C2.  The claim states that a unit fetched and parsed successfully but
yielding zero entities still gets a ProgressRecord with
`entities_found = 0`, so a later run skips it.  The code contradicts this
(and its own comment "Still record progress even if no schools found",
incremental_scraper.py 259): `save_schools_batch` returns at
`if not schools` (line 93) before the progress insert, so nothing is
written and the unit is fetched again on every subsequent run — shown
here by running the orchestrator twice over a city parsing to `[]`: the
progress table stays empty and both runs fetch the city. -/
theorem claim_C2_code_bug :
    (∀ (now : Nat) (st : ScrState) (u : String) (i n : Nat),
      save_schools_batch now st [] u i n = (0, st)) ∧
    (run_incremental_scrape orcEmptyCity (fun _ => false) "s" ["city-a"]
      {} 0).1.progress = [] ∧
    (run_incremental_scrape orcEmptyCity (fun _ => false) "s" ["city-a"] {} 0).2.1 =
      ["city-a"] ∧
    (run_incremental_scrape orcEmptyCity (fun _ => false) "s" ["city-a"]
      (run_incremental_scrape orcEmptyCity (fun _ => false) "s" ["city-a"] {} 0).1
      0).2.1 = ["city-a"] :=
  ⟨save_schools_batch_empty, by decide, by decide, by decide⟩

theorem rowsOfSchools_error (now : Nat) (schools : List ScrapedSchool)
    (h : ∃ s ∈ schools, s.success_attr = none) :
    rowsOfSchools now schools = .error .attributeError := by
  induction schools with
  | nil => obtain ⟨s, hs, _⟩ := h; simp at hs
  | cons x xs ih =>
    obtain ⟨s, hs, hattr⟩ := h
    rcases List.mem_cons.mp hs with rfl | hs
    · simp [rowsOfSchools, rowOfSchool, hattr]
    · simp only [rowsOfSchools]
      cases hx : rowOfSchool now x with
      | error e => cases e; rfl
      | ok r => rw [ih ⟨s, hs, hattr⟩]

theorem save_schools_batch_error (now : Nat) (st : ScrState)
    (schools : List ScrapedSchool) (u : String) (i n : Nat)
    (h : ∃ s ∈ schools, s.success_attr = none) :
    save_schools_batch now st schools u i n = (0, st) := by
  obtain ⟨s, hs, hattr⟩ := h
  have hne : schools ≠ [] := by rintro rfl; simp at hs
  simp only [save_schools_batch, if_neg hne, rowsOfSchools_error now schools ⟨s, hs, hattr⟩]

theorem scrape_details_no_url (fd : String → Option DetailPage) (s : ScrapedSchool)
    (h : hasDetailUrl s = false) : scrape_school_details fd s = s := by
  simp [scrape_school_details, h]

theorem scrape_details_attr (fd : String → Option DetailPage) (s : ScrapedSchool)
    (pg : DetailPage) (hfd : fd (s.url.getD "") = some pg)
    (hfind : pg.successMatches.find? (fun v => decide (0 ≤ v ∧ v ≤ 100)) = none) :
    (scrape_school_details fd s).success_attr = s.success_attr := by
  by_cases hd : hasDetailUrl s
  · simp only [scrape_school_details, hd, Bool.not_true, Bool.false_eq_true, if_false, hfd,
      hfind]
    repeat' split
    all_goals rfl
  · rw [scrape_details_no_url fd s (by simpa using hd)]

/-- C10: every entity on which the detail step set no success rate — in
particular every listing-parsed entity with no detail-page url — carries
no `success_rate` attribute, so building its parameter dict raises
`AttributeError`, the exception is caught, and the entire batch including
the unit's progress record is not persisted. -/
theorem claim_C10 :
    (∀ (src u : String) (li : ListingInfo), (mkListingSchool src u li).success_attr = none) ∧
    (∀ (fd : String → Option DetailPage) (s : ScrapedSchool),
      hasDetailUrl s = false → scrape_school_details fd s = s) ∧
    (∀ (fd : String → Option DetailPage) (s : ScrapedSchool) (pg : DetailPage),
      fd (s.url.getD "") = some pg →
      pg.successMatches.find? (fun v => decide (0 ≤ v ∧ v ≤ 100)) = none →
      (scrape_school_details fd s).success_attr = s.success_attr) ∧
    (∀ (now : Nat) (st : ScrState) (schools : List ScrapedSchool) (u : String) (i n : Nat),
      (∃ s ∈ schools, s.success_attr = none) →
      save_schools_batch now st schools u i n = (0, st)) :=
  ⟨fun _ _ _ => rfl, scrape_details_no_url, scrape_details_attr, save_schools_batch_error⟩

def sampleListingSchool : ScrapedSchool := mkListingSchool "s" "u" { name := "A" }

/-- C10 witness: a listing-parsed school at concrete inputs — untouched
by the detail step, attribute-less, and poisoning its whole batch. -/
theorem claim_C10_witness :
    (hasDetailUrl sampleListingSchool = false ∧
      scrape_school_details (fun _ => none) sampleListingSchool = sampleListingSchool) ∧
    ((fun _ : String => some ({} : DetailPage)) (sampleListingSchool.url.getD "") =
        some ({} : DetailPage) ∧
      (scrape_school_details (fun _ => some ({} : DetailPage))
          sampleListingSchool).success_attr = sampleListingSchool.success_attr) ∧
    (sampleListingSchool.success_attr = none ∧
      save_schools_batch 0 {} [sampleListingSchool] "u" 1 1 = (0, {})) := by
  refine ⟨⟨by decide, claim_C10.2.1 _ _ (by decide)⟩,
    ⟨rfl, claim_C10.2.2.1 _ _ {} rfl (by decide)⟩,
    ⟨rfl, claim_C10.2.2.2 0 {} _ "u" 1 1 ⟨sampleListingSchool, by simp, rfl⟩⟩⟩

def keyRowAfter (cur : Option DSRow) (now : Nat) (v : DSRow) : DSRow :=
  match cur with
  | none => v
  | some r => updateEnrichment now v r

theorem sameKey_update (r : DSRow) (now : Nat) (v : DSRow) (n : String) (a : Option String) :
    sameKey (updateEnrichment now v r) n a = sameKey r n a := rfl

theorem upsertSchool_keyFilter (now : Nat) (db : List DSRow) (v : DSRow)
    (n : String) (a : String) (hv : v.name = n ∧ v.address = some a)
    (hinv : (db.filter (fun r => sameKey r n (some a))).length ≤ 1) :
    (upsertSchool now db v).filter (fun r => sameKey r n (some a)) =
      [keyRowAfter ((db.filter (fun r => sameKey r n (some a))).head?) now v] := by
  have hvk : ∀ r : DSRow, sameKey r v.name v.address = sameKey r n (some a) := by
    intro r; rw [hv.1, hv.2]
  by_cases hany : db.any (fun r => sameKey r v.name v.address) = true
  · have hmem : ∃ r ∈ db, sameKey r n (some a) = true := by
      obtain ⟨r, hr, hk⟩ := List.any_eq_true.mp hany
      exact ⟨r, hr, by rw [← hvk]; exact hk⟩
    obtain ⟨r0, hr0, hk0⟩ := hmem
    have hfne : db.filter (fun r => sameKey r n (some a)) ≠ [] := by
      intro hempty
      have : r0 ∈ db.filter (fun r => sameKey r n (some a)) :=
        List.mem_filter.mpr ⟨hr0, hk0⟩
      rw [hempty] at this
      simp at this
    obtain ⟨rh, rt, hrt⟩ := List.exists_cons_of_ne_nil hfne
    have hsingle : db.filter (fun r => sameKey r n (some a)) = [rh] := by
      have hlen := hinv
      rw [hrt] at hlen ⊢
      simp only [List.length_cons] at hlen
      have : rt = [] := List.length_eq_zero.mp (by omega)
      rw [this]
    simp only [upsertSchool, if_pos hany]
    rw [List.filter_map]
    have hcongr : db.filter
        ((fun r => sameKey r n (some a)) ∘ (fun r =>
          if sameKey r v.name v.address then updateEnrichment now v r
          else r)) = db.filter (fun r => sameKey r n (some a)) := by
      apply List.filter_congr
      intro r _
      simp only [Function.comp]
      by_cases hk : sameKey r v.name v.address = true
      · rw [if_pos hk, sameKey_update]
      · rw [if_neg hk]
    rw [hcongr, hsingle]
    have hkh : sameKey rh v.name v.address = true := by
      rw [hvk]
      have : rh ∈ db.filter (fun r => sameKey r n (some a)) := by
        rw [hsingle]; exact List.mem_cons_self _ _
      exact (List.mem_filter.mp this).2
    simp only [List.map_cons, List.map_nil, if_pos hkh, hsingle, List.head?_cons,
      keyRowAfter]
  · have hempty : db.filter (fun r => sameKey r n (some a)) = [] := by
      rw [List.filter_eq_nil_iff]
      intro r hr
      intro hk
      exact hany (List.any_eq_true.mpr ⟨r, hr, by rw [hvk]; exact hk⟩)
    simp only [upsertSchool, if_neg hany, List.filter_append, hempty, List.nil_append]
    have hvkey : sameKey v n (some a) = true := by
      simp [sameKey, hv.1, hv.2]
    simp [List.filter_cons, hvkey, keyRowAfter]

def afterWrites (cur : Option DSRow) : List (Nat × DSRow) → Option DSRow
  | [] => cur
  | w :: ws => afterWrites (some (keyRowAfter cur w.1 w.2)) ws

theorem upsert_seq_filter (n a : String) :
    ∀ (writes : List (Nat × DSRow)) (db : List DSRow),
      (∀ w ∈ writes, (Prod.snd w).name = n ∧ (Prod.snd w).address = some a) →
      (db.filter (fun r => sameKey r n (some a))).length ≤ 1 →
      writes ≠ [] →
      ∃ r, afterWrites ((db.filter (fun r => sameKey r n (some a))).head?) writes = some r ∧
        (writes.foldl (fun d w => upsertSchool w.1 d w.2) db).filter
          (fun r => sameKey r n (some a)) = [r] := by
  intro writes
  induction writes with
  | nil => intro db _ _ hne; exact absurd rfl hne
  | cons w ws ih =>
    intro db hkey hinv _
    have hstep := upsertSchool_keyFilter w.1 db w.2 n a (hkey w (List.mem_cons_self _ _)) hinv
    match ws, ih with
    | [], _ =>
      exact ⟨keyRowAfter ((db.filter (fun r => sameKey r n (some a))).head?) w.1 w.2,
        rfl, hstep⟩
    | v :: vs, ih =>
      have hinv2 : ((upsertSchool w.1 db w.2).filter
          (fun r => sameKey r n (some a))).length ≤ 1 := by
        rw [hstep]; simp
      obtain ⟨r, hr1, hr2⟩ := ih (upsertSchool w.1 db w.2)
        (fun x hx => hkey x (List.mem_cons_of_mem _ hx)) hinv2 (by simp)
      refine ⟨r, ?_, hr2⟩
      rw [show afterWrites ((db.filter (fun r => sameKey r n (some a))).head?) (w :: v :: vs) =
        afterWrites (some (keyRowAfter ((db.filter (fun r => sameKey r n (some a))).head?)
          w.1 w.2)) (v :: vs) from rfl]
      rw [← hr1, hstep]
      rfl

theorem afterWrites_fields (n a : String) :
    ∀ (writes : List (Nat × DSRow)) (cur : Option DSRow) (hne : writes ≠ []) (r : DSRow),
      afterWrites cur writes = some r →
      (r.phone = (writes.getLast hne).2.phone ∧
       r.email = (writes.getLast hne).2.email ∧
       r.website = (writes.getLast hne).2.website ∧
       r.rating = (writes.getLast hne).2.rating ∧
       r.review_count = (writes.getLast hne).2.review_count ∧
       r.success_rate = (writes.getLast hne).2.success_rate) ∧
      (match cur with
       | some r0 => r.name = r0.name ∧ r.address = r0.address ∧ r.created_at = r0.created_at
       | none => r.name = (writes.head hne).2.name ∧
           r.address = (writes.head hne).2.address ∧
           r.created_at = (writes.head hne).2.created_at) := by
  intro writes
  induction writes with
  | nil => intro cur hne; exact absurd rfl hne
  | cons w ws ih =>
    intro cur _ r hr
    match ws, ih with
    | [], _ =>
      have : r = keyRowAfter cur w.1 w.2 := by
        simpa [afterWrites] using hr.symm
      subst this
      cases cur with
      | none => exact ⟨⟨rfl, rfl, rfl, rfl, rfl, rfl⟩, rfl, rfl, rfl⟩
      | some r0 => exact ⟨⟨rfl, rfl, rfl, rfl, rfl, rfl⟩, rfl, rfl, rfl⟩
    | v :: vs, ih =>
      have hr2 : afterWrites (some (keyRowAfter cur w.1 w.2)) (v :: vs) = some r := hr
      obtain ⟨henr, hbase⟩ := ih (some (keyRowAfter cur w.1 w.2)) (by simp) r hr2
      refine ⟨by simpa [List.getLast] using henr, ?_⟩
      cases cur with
      | none =>
        simp only [keyRowAfter] at hbase
        exact hbase
      | some r0 =>
        simp only [keyRowAfter, updateEnrichment] at hbase
        exact hbase

theorem sameKey_name_addr (r : DSRow) (n a : String) (h : sameKey r n (some a) = true) :
    r.name = n ∧ r.address = some a := by
  simp only [sameKey, Bool.and_eq_true, beq_iff_eq] at h
  exact ⟨h.1.1, h.1.2⟩

/-- C1 amended.  The original claim says a later write's absent field
leaves the earlier stored value unchanged; in the code the
`DO UPDATE SET` clause overwrites all six enrichment columns
unconditionally, so the amended statement is: after any nonempty sequence
of upserts for one (name, non-NULL address) key, exactly one row for the
key remains, its six enrichment fields equal the LAST write's values
(absent included), and the natural key and `created_at` are never altered
(they come from the pre-existing row, or from the first write when the
key was absent). -/
theorem claim_C1_amended (n a : String) (writes : List (Nat × DSRow)) (db : List DSRow)
    (hkey : ∀ w ∈ writes, (Prod.snd w).name = n ∧ (Prod.snd w).address = some a)
    (hinv : (db.filter (fun r => sameKey r n (some a))).length ≤ 1)
    (hne : writes ≠ []) :
    ∃ r, (writes.foldl (fun d w => upsertSchool w.1 d w.2) db).filter
        (fun r => sameKey r n (some a)) = [r] ∧
      r.name = n ∧ r.address = some a ∧
      r.phone = (writes.getLast hne).2.phone ∧
      r.email = (writes.getLast hne).2.email ∧
      r.website = (writes.getLast hne).2.website ∧
      r.rating = (writes.getLast hne).2.rating ∧
      r.review_count = (writes.getLast hne).2.review_count ∧
      r.success_rate = (writes.getLast hne).2.success_rate ∧
      (∀ r0, db.filter (fun r => sameKey r n (some a)) = [r0] → r.created_at = r0.created_at) ∧
      (db.filter (fun r => sameKey r n (some a)) = [] →
        r.created_at = (writes.head hne).2.created_at) := by
  obtain ⟨r, hr1, hr2⟩ := upsert_seq_filter n a writes db hkey hinv hne
  obtain ⟨henr, hbase⟩ := afterWrites_fields n a writes _ hne r hr1
  have hmem : r ∈ (writes.foldl (fun d w => upsertSchool w.1 d w.2) db).filter
      (fun r => sameKey r n (some a)) := by rw [hr2]; exact List.mem_cons_self _ _
  have hkeyr := sameKey_name_addr r n a (List.mem_filter.mp hmem).2
  refine ⟨r, hr2, hkeyr.1, hkeyr.2, henr.1, henr.2.1, henr.2.2.1, henr.2.2.2.1,
    henr.2.2.2.2.1, henr.2.2.2.2.2, ?_, ?_⟩
  · intro r0 h0
    rw [h0] at hbase
    simp only [List.head?_cons] at hbase
    exact hbase.2.2
  · intro h0
    rw [h0] at hbase
    simp only [List.head?_nil] at hbase
    exact hbase.2.2

def c1SchoolFirst : ScrapedSchool :=
  { name := "A", address := some "X", phone := some "0612345678", success_attr := some 50 }

def c1SchoolSecond : ScrapedSchool :=
  { name := "A", address := some "X", phone := none, success_attr := some 60 }

/-- C1 counterexample.  Persisting phone "0612345678" and then persisting
the same (name, address) key with phone None leaves the stored phone
NULL: the later write's absent field overwrote the earlier value, which
the claim says cannot happen. -/
theorem claim_C1_counterexample :
    c1SchoolFirst.phone = some "0612345678" ∧ c1SchoolSecond.phone = none ∧
    ((save_schools_batch 1
        (save_schools_batch 0 {} [c1SchoolFirst] "u" 1 1).2
        [c1SchoolSecond] "u" 1 1).2.db.map (fun r => r.phone)) = [none] := by
  refine ⟨rfl, rfl, by decide⟩

def c1writes : List (Nat × DSRow) :=
  [(0, { name := "A", address := some "X", phone := some "06", created_at := 0 }),
   (1, { name := "A", address := some "X", phone := none, created_at := 1 })]

/-- C1 witness: the amended upsert-sequence theorem applied to two
concrete writes on an empty store. -/
theorem claim_C1_witness :
    (∀ w ∈ c1writes, (Prod.snd w).name = "A" ∧ (Prod.snd w).address = some "X") ∧
    ((([] : List DSRow).filter (fun r => sameKey r "A" (some "X"))).length ≤ 1) ∧
    c1writes ≠ [] ∧
    ((c1writes.foldl (fun d w => upsertSchool w.1 d w.2) []).filter
      (fun r => sameKey r "A" (some "X"))).length = 1 := by
  refine ⟨by decide, by decide, by decide, ?_⟩
  obtain ⟨r, hr, _⟩ := claim_C1_amended "A" "X" c1writes [] (by decide) (by decide)
    (by decide)
  rw [hr]
  rfl

theorem upsertProgress_filter_ne (now : Nat) (ps : List ProgressRow) (v : ProgressRow)
    (u0 : String) (hne : v.city_url ≠ u0) :
    (upsertProgress now ps v).filter (fun r => r.city_url == u0) =
      ps.filter (fun r => r.city_url == u0) := by
  by_cases hany : ps.any (fun r => r.city_url == v.city_url) = true
  · simp only [upsertProgress, if_pos hany]
    rw [List.filter_map]
    have hcongr : ps.filter ((fun r => r.city_url == u0) ∘ (fun r =>
        if r.city_url == v.city_url then
          { r with schools_found := v.schools_found, completed_at := now }
        else r)) = ps.filter (fun r => r.city_url == u0) := by
      apply List.filter_congr
      intro r _
      simp only [Function.comp]
      by_cases hk : r.city_url == v.city_url
      · rw [if_pos hk]
      · rw [if_neg hk]
    rw [hcongr]
    conv_rhs => rw [← List.map_id (List.filter (fun r => r.city_url == u0) ps)]
    apply List.map_congr_left
    intro r hr
    have : (r.city_url == u0) = true := (List.mem_filter.mp hr).2
    have hru : r.city_url = u0 := by simpa using this
    rw [if_neg (by simp [hru]; exact fun h => hne h.symm)]
    rfl
  · simp only [upsertProgress, if_neg hany, List.filter_append]
    rw [List.filter_cons]
    rw [if_neg (by simp [hne])]
    simp

theorem save_progress_filter_ne (now : Nat) (st : ScrState) (schools : List ScrapedSchool)
    (u : String) (i n : Nat) (u0 : String) (hne : u ≠ u0) :
    ((save_schools_batch now st schools u i n).2.progress.filter
      (fun r => r.city_url == u0)) = st.progress.filter (fun r => r.city_url == u0) := by
  by_cases hempty : schools = []
  · rw [hempty]; rfl
  · simp only [save_schools_batch, if_neg hempty]
    cases hrows : rowsOfSchools now schools with
    | error e => rfl
    | ok rows =>
      simp only []
      exact upsertProgress_filter_ne now st.progress _ u0 hne

theorem runCities_progress_preserved (orc : ScrapeOracles) (stop : Nat → Bool) (src : String)
    (u0 : String) :
    ∀ (cl : List (Nat × String)) (total : Nat) (completed : List String)
      (st : ScrState) (t : Nat),
      completed.contains u0 = true →
      ((runCities orc stop src cl total completed st t).1.progress.filter
        (fun r => r.city_url == u0)) = st.progress.filter (fun r => r.city_url == u0) := by
  intro cl
  induction cl with
  | nil => intro total completed st t _; rfl
  | cons p rest ih =>
    intro total completed st t hu0
    obtain ⟨i, u⟩ := p
    by_cases hstop : stop t
    · simp [runCities, hstop]
    · simp only [runCities, if_neg hstop]
      by_cases hcon : completed.contains u
      · rw [if_pos hcon]
        exact ih total completed st (t + 1) hu0
      · rw [if_neg hcon]
        have hne : u ≠ u0 := by
          intro h
          rw [h] at hcon
          exact hcon hu0
        cases horc : orc.fetchCity u with
        | none =>
          simp only []
          exact ih total completed st (t + 1) hu0
        | some listing =>
          simp only []
          by_cases hempt : (listing.map (mkListingSchool src u)).isEmpty
          · rw [if_pos hempt]
            simp only []
            rw [ih total completed _ (t + 1) hu0]
            exact save_progress_filter_ne _ st [] u i total u0 hne
          · rw [if_neg hempt]
            simp only []
            rw [ih total completed _ _ hu0]
            exact save_progress_filter_ne _ st _ u i total u0 hne

theorem runCities_fetched (orc : ScrapeOracles) (src : String) :
    ∀ (cl : List (Nat × String)) (total : Nat) (completed : List String)
      (st : ScrState) (t : Nat),
      (runCities orc (fun _ => false) src cl total completed st t).2.1 =
        (cl.filter (fun p => !(completed.contains p.2))).map Prod.snd := by
  intro cl
  induction cl with
  | nil => intro total completed st t; rfl
  | cons p rest ih =>
    intro total completed st t
    obtain ⟨i, u⟩ := p
    simp only [runCities, if_neg (by simp : ¬(false = true))]
    by_cases hcon : completed.contains u
    · have hmem : u ∈ completed := by simpa using hcon
      rw [if_pos hcon]
      rw [List.filter_cons]
      rw [if_neg (by simp [hmem])]
      exact ih total completed st (t + 1)
    · have hmem : u ∉ completed := by simpa using hcon
      rw [if_neg hcon]
      have hfilter : ((i, u) :: rest).filter (fun p => !(completed.contains p.2)) =
          (i, u) :: rest.filter (fun p => !(completed.contains p.2)) := by
        rw [List.filter_cons, if_pos (by simp [hmem])]
      cases horc : orc.fetchCity u with
      | none =>
        simp only []
        rw [hfilter, List.map_cons, ih total completed st (t + 1)]
      | some listing =>
        simp only []
        by_cases hempt : (listing.map (mkListingSchool src u)).isEmpty
        · rw [if_pos hempt]
          simp only []
          rw [hfilter, List.map_cons, ih total completed _ (t + 1)]
        · rw [if_neg hempt]
          simp only []
          rw [hfilter, List.map_cons, ih total completed _ _]

/-- C3: with units u1..u4 discovered and progress records existing
exactly for u1 and u3, a run with no stop request fetches exactly u2 and
u4 (in discovery order, whatever the fetch/parse oracle returns — a unit
is skipped iff its url has a progress record), and the stored progress
rows of u1 and u3 are unchanged at the end of the run. -/
theorem claim_C3 (orc : ScrapeOracles) (src : String) (u1 u2 u3 u4 : String)
    (st : ScrState) (t : Nat)
    (h1 : (get_completed_cities st).contains u1 = true)
    (h3 : (get_completed_cities st).contains u3 = true)
    (h2 : (get_completed_cities st).contains u2 = false)
    (h4 : (get_completed_cities st).contains u4 = false) :
    (run_incremental_scrape orc (fun _ => false) src [u1, u2, u3, u4] st t).2.1 =
      [u2, u4] ∧
    ((run_incremental_scrape orc (fun _ => false) src [u1, u2, u3, u4] st t).1.progress.filter
      (fun r => r.city_url == u1)) = st.progress.filter (fun r => r.city_url == u1) ∧
    ((run_incremental_scrape orc (fun _ => false) src [u1, u2, u3, u4] st t).1.progress.filter
      (fun r => r.city_url == u3)) = st.progress.filter (fun r => r.city_url == u3) := by
  refine ⟨?_, runCities_progress_preserved orc _ src u1 _ _ _ st t h1,
    runCities_progress_preserved orc _ src u3 _ _ _ st t h3⟩
  have m1 : u1 ∈ get_completed_cities st := by simpa using h1
  have m3 : u3 ∈ get_completed_cities st := by simpa using h3
  have m2 : u2 ∉ get_completed_cities st := by simpa using h2
  have m4 : u4 ∉ get_completed_cities st := by simpa using h4
  rw [run_incremental_scrape, runCities_fetched]
  simp [List.enumFrom, List.filter_cons, m1, m2, m3, m4]

theorem enhanceLoop_isPrefix (orc : ScrapeOracles) (stop : Nat → Bool) :
    ∀ (schools : List ScrapedSchool) (t : Nat),
      ∃ k, (enhanceLoop orc stop schools t).1 =
        (schools.take k).map
          (fun s => if hasDetailUrl s then scrape_school_details orc.fetchDetail s else s) := by
  intro schools
  induction schools with
  | nil => intro t; exact ⟨0, rfl⟩
  | cons s rest ih =>
    intro t
    by_cases hstop : stop t
    · exact ⟨0, by simp [enhanceLoop, hstop]⟩
    · obtain ⟨k, hk⟩ := ih (t + 1)
      refine ⟨k + 1, ?_⟩
      simp only [enhanceLoop, if_neg hstop, List.take_succ_cons, List.map_cons]
      rw [hk]

theorem rowsOfSchools_ok (now : Nat) :
    ∀ (schools : List ScrapedSchool),
      (∀ s ∈ schools, (ScrapedSchool.success_attr s).isSome = true) →
      ∃ rows, rowsOfSchools now schools = .ok rows ∧
        ∀ s ∈ schools, ∃ r ∈ rows, DSRow.name r = s.name ∧ DSRow.address r = s.address := by
  intro schools
  induction schools with
  | nil => intro _; exact ⟨[], rfl, by simp⟩
  | cons x xs ih =>
    intro h
    have hx := h x (List.mem_cons_self _ _)
    obtain ⟨v, hv⟩ := Option.isSome_iff_exists.mp hx
    obtain ⟨rows, hrows, hcorr⟩ := ih (fun s hs => h s (List.mem_cons_of_mem _ hs))
    cases hrx : rowOfSchool now x with
    | error e =>
      exfalso
      simp [rowOfSchool, hv] at hrx
    | ok rx =>
      have hfields : rx.name = x.name ∧ rx.address = x.address := by
        simp only [rowOfSchool, hv, Except.ok.injEq] at hrx
        rw [← hrx]
        exact ⟨rfl, rfl⟩
      refine ⟨rx :: rows, ?_, ?_⟩
      · simp only [rowsOfSchools, hrx, hrows]
      · intro s hs
        rcases List.mem_cons.mp hs with rfl | hs
        · exact ⟨rx, List.mem_cons_self _ _, hfields.1, hfields.2⟩
        · obtain ⟨r, hr, hrn, hra⟩ := hcorr s hs
          exact ⟨r, List.mem_cons_of_mem _ hr, hrn, hra⟩

theorem upsertSchool_key_present (now : Nat) (db : List DSRow) (v : DSRow) :
    ∃ r ∈ upsertSchool now db v, DSRow.name r = v.name ∧ DSRow.address r = v.address := by
  by_cases hany : db.any (fun r => sameKey r v.name v.address) = true
  · obtain ⟨r0, hr0, hk0⟩ := List.any_eq_true.mp hany
    have hk := hk0
    simp only [sameKey, Bool.and_eq_true, beq_iff_eq] at hk
    refine ⟨updateEnrichment now v r0, ?_, ?_, ?_⟩
    · simp only [upsertSchool, if_pos hany]
      exact List.mem_map.mpr ⟨r0, hr0, by rw [if_pos hk0]⟩
    · simpa [updateEnrichment] using hk.1.1
    · simpa [updateEnrichment] using hk.1.2
  · refine ⟨v, ?_, rfl, rfl⟩
    simp only [upsertSchool, if_neg hany]
    exact List.mem_append_right _ (List.mem_cons_self _ _)

theorem upsertSchool_key_preserved (now : Nat) (db : List DSRow) (v : DSRow) (r : DSRow)
    (hr : r ∈ db) :
    ∃ r2 ∈ upsertSchool now db v, DSRow.name r2 = r.name ∧ DSRow.address r2 = r.address := by
  by_cases hany : db.any (fun r => sameKey r v.name v.address) = true
  · simp only [upsertSchool, if_pos hany]
    by_cases hk : sameKey r v.name v.address = true
    · exact ⟨updateEnrichment now v r,
        List.mem_map.mpr ⟨r, hr, by rw [if_pos hk]⟩, rfl, rfl⟩
    · exact ⟨r, List.mem_map.mpr ⟨r, hr, by rw [if_neg hk]⟩, rfl, rfl⟩
  · refine ⟨r, ?_, rfl, rfl⟩
    simp only [upsertSchool, if_neg hany]
    exact List.mem_append_left _ hr

theorem foldl_upsert_key_preserved (now : Nat) :
    ∀ (rows : List DSRow) (db : List DSRow) (r : DSRow), r ∈ db →
      ∃ r2 ∈ rows.foldl (upsertSchool now) db, DSRow.name r2 = r.name ∧
        DSRow.address r2 = r.address := by
  intro rows
  induction rows with
  | nil => intro db r hr; exact ⟨r, hr, rfl, rfl⟩
  | cons w ws ih =>
    intro db r hr
    obtain ⟨r1, hr1, hn1, ha1⟩ := upsertSchool_key_preserved now db w r hr
    obtain ⟨r2, hr2, hn2, ha2⟩ := ih (upsertSchool now db w) r1 hr1
    exact ⟨r2, hr2, by rw [hn2, hn1], by rw [ha2, ha1]⟩

theorem foldl_upsert_key_present (now : Nat) :
    ∀ (rows : List DSRow) (db : List DSRow) (v : DSRow), v ∈ rows →
      ∃ r ∈ rows.foldl (upsertSchool now) db, DSRow.name r = v.name ∧
        DSRow.address r = v.address := by
  intro rows
  induction rows with
  | nil => intro db v hv; simp at hv
  | cons w ws ih =>
    intro db v hv
    rcases List.mem_cons.mp hv with rfl | hv
    · obtain ⟨r1, hr1, hn1, ha1⟩ := upsertSchool_key_present now db v
      obtain ⟨r2, hr2, hn2, ha2⟩ := foldl_upsert_key_preserved now ws _ r1 hr1
      exact ⟨r2, hr2, by rw [hn2, hn1], by rw [ha2, ha1]⟩
    · exact ih (upsertSchool now db w) v hv

theorem upsertProgress_present (now : Nat) (ps : List ProgressRow) (v : ProgressRow) :
    ∃ p ∈ upsertProgress now ps v, ProgressRow.city_url p = v.city_url := by
  by_cases hany : ps.any (fun r => r.city_url == v.city_url) = true
  · obtain ⟨p0, hp0, hk0⟩ := List.any_eq_true.mp hany
    have hk : p0.city_url = v.city_url := by simpa using hk0
    simp only [upsertProgress, if_pos hany]
    exact ⟨{ p0 with schools_found := v.schools_found, completed_at := now },
      List.mem_map.mpr ⟨p0, hp0, by rw [if_pos hk0]⟩, hk⟩
  · refine ⟨v, ?_, rfl⟩
    simp only [upsertProgress, if_neg hany]
    exact List.mem_append_right _ (List.mem_cons_self _ _)

/-- C9 amended.  The original claim says every entity extracted from the
listing page is persisted when the stop flag is raised mid-batch; in the
code the enhancement loop breaks on the flag and only the
already-enhanced prefix reaches `save_schools_batch`, so the amended
statement is: the saved batch is the enhanced prefix of the extracted
entities (`take k` under the detail map, for some k), every entity of
that prefix has a row under its (name, address) key in the final store,
and the unit still gets a progress record — provided the batch is
nonempty and every enhanced entity carries the `success_rate` attribute
(otherwise claim C10's failure drops the batch wholesale). -/
theorem claim_C9_amended (orc : ScrapeOracles) (stop : Nat → Bool)
    (schools : List ScrapedSchool) (t : Nat) (st : ScrState) (u : String) (i n : Nat)
    (hok : ∀ s ∈ (enhanceLoop orc stop schools t).1,
      (ScrapedSchool.success_attr s).isSome = true)
    (hne : (enhanceLoop orc stop schools t).1 ≠ []) :
    (∃ k, (enhanceLoop orc stop schools t).1 =
      (schools.take k).map
        (fun s => if hasDetailUrl s then scrape_school_details orc.fetchDetail s else s)) ∧
    (∀ s ∈ (enhanceLoop orc stop schools t).1,
      ∃ r ∈ (save_schools_batch (enhanceLoop orc stop schools t).2 st
          (enhanceLoop orc stop schools t).1 u i n).2.db,
        DSRow.name r = s.name ∧ DSRow.address r = s.address) ∧
    (∃ p ∈ (save_schools_batch (enhanceLoop orc stop schools t).2 st
        (enhanceLoop orc stop schools t).1 u i n).2.progress,
      ProgressRow.city_url p = u) := by
  obtain ⟨rows, hrows, hcorr⟩ :=
    rowsOfSchools_ok (enhanceLoop orc stop schools t).2 (enhanceLoop orc stop schools t).1 hok
  have hsave : (save_schools_batch (enhanceLoop orc stop schools t).2 st
      (enhanceLoop orc stop schools t).1 u i n).2 =
      { db := rows.foldl (upsertSchool (enhanceLoop orc stop schools t).2) st.db,
        progress := upsertProgress (enhanceLoop orc stop schools t).2 st.progress
          { city_url := u, city_index := i, total_cities := n,
            schools_found := (enhanceLoop orc stop schools t).1.length,
            completed_at := (enhanceLoop orc stop schools t).2 } } := by
    simp only [save_schools_batch, if_neg hne, hrows]
  refine ⟨enhanceLoop_isPrefix orc stop schools t, ?_, ?_⟩
  · intro s hs
    obtain ⟨r0, hr0, hrn, hra⟩ := hcorr s hs
    obtain ⟨r, hr, hn2, ha2⟩ := foldl_upsert_key_present _ rows st.db r0 hr0
    rw [hsave]
    exact ⟨r, hr, by rw [hn2, hrn], by rw [ha2, hra]⟩
  · rw [hsave]
    exact upsertProgress_present _ st.progress _

def c9Listing1 : ListingInfo := { name := "A", link := some "https://x/rijscholen/rijschool-a" }

def c9Listing2 : ListingInfo := { name := "B", link := some "https://x/rijscholen/rijschool-b" }

def c9Oracle : ScrapeOracles :=
  ⟨fun _ => some [c9Listing1, c9Listing2], fun _ => some { successMatches := [50] }⟩

def c9Stop : Nat → Bool := fun t => decide (2 ≤ t)

/-- C9 counterexample.  A unit whose listing yields entities A and B,
with the stop flag raised after A's detail fetch: only A is persisted, B
remains extracted-but-unpersisted, and the unit is marked complete — so
"every entity already extracted is persisted" is false. -/
theorem claim_C9_counterexample :
    ((run_incremental_scrape c9Oracle c9Stop "s" ["c"] {} 0).1.db.map
      (fun r => r.name)) = ["A"] ∧
    ((c9Oracle.fetchCity "c").getD []).map (fun li => li.name) = ["A", "B"] ∧
    (¬ ∃ r ∈ (run_incremental_scrape c9Oracle c9Stop "s" ["c"] {} 0).1.db,
      DSRow.name r = "B") ∧
    ((run_incremental_scrape c9Oracle c9Stop "s" ["c"] {} 0).1.progress.map
      (fun p => p.city_url)) = ["c"] := by
  refine ⟨by decide, by decide, by decide, by decide⟩

def c3State : ScrState :=
  { progress := [{ city_url := "u1" }, { city_url := "u3" }] }

/-- C3 witness: the resume theorem at a concrete store holding records
for "u1" and "u3". -/
theorem claim_C3_witness :
    ((get_completed_cities c3State).contains "u1" = true ∧
     (get_completed_cities c3State).contains "u3" = true ∧
     (get_completed_cities c3State).contains "u2" = false ∧
     (get_completed_cities c3State).contains "u4" = false) ∧
    (run_incremental_scrape orcEmptyCity (fun _ => false) "s" ["u1", "u2", "u3", "u4"]
      c3State 0).2.1 = ["u2", "u4"] :=
  ⟨⟨by decide, by decide, by decide, by decide⟩,
    (claim_C3 orcEmptyCity "s" "u1" "u2" "u3" "u4" c3State 0
      (by decide) (by decide) (by decide) (by decide)).1⟩

/-- C9 witness: the amended theorem at a concrete single-entity batch
with no stop request. -/
theorem claim_C9_witness :
    (∀ s ∈ (enhanceLoop c9Oracle (fun _ => false) [mkListingSchool "s" "c" c9Listing1] 0).1,
      (ScrapedSchool.success_attr s).isSome = true) ∧
    (enhanceLoop c9Oracle (fun _ => false) [mkListingSchool "s" "c" c9Listing1] 0).1 ≠ [] ∧
    ∃ p ∈ (save_schools_batch
        (enhanceLoop c9Oracle (fun _ => false) [mkListingSchool "s" "c" c9Listing1] 0).2 {}
        (enhanceLoop c9Oracle (fun _ => false) [mkListingSchool "s" "c" c9Listing1] 0).1
        "c" 1 1).2.progress,
      ProgressRow.city_url p = "c" :=
  ⟨by decide, by decide,
    (claim_C9_amended c9Oracle (fun _ => false)
      [mkListingSchool "s" "c" c9Listing1] 0 {} "c" 1 1 (by decide) (by decide)).2.2⟩
